import Mathlib

/-!
Shallow embedding of the Klondike engine (speevy/Klondike-rust).

Rust vectors used as stacks (push/pop at the end) are modelled by Lean
lists in the same order: the last list element is the top of the stack.
`vec.push c` becomes `l ++ [c]`, `vec.pop` becomes `l.getLast?` together
with `l.dropLast`, and the slice `vec[vec.len() - n ..]` becomes
`l.drop (l.length - n)`.

Rust indexing panics (out-of-range slice or element access, and the
`panic!` in `extract_two_mutable_elements`) are modelled by `Option`:
`none` is a panic, `some` a normal return.
-/

/-- The four suits, from american_cards.rs. -/
inductive CardSuit where
  | CLUBS
  | DIAMONDS
  | HEARTS
  | SPADES
deriving DecidableEq, Repr

/-- The thirteen ranks, from american_cards.rs (discriminants 1..13). -/
inductive CardRank where
  | ACE
  | TWO
  | THREE
  | FOUR
  | FIVE
  | SIX
  | SEVEN
  | EIGHT
  | NINE
  | TEN
  | JACK
  | QUEEN
  | KING
deriving DecidableEq, Repr

/-- The numeric value of a rank, mirroring `rank as i32` in Rust
(ACE = 1 .. KING = 13). -/
def rankVal : CardRank → Nat
  | .ACE => 1
  | .TWO => 2
  | .THREE => 3
  | .FOUR => 4
  | .FIVE => 5
  | .SIX => 6
  | .SEVEN => 7
  | .EIGHT => 8
  | .NINE => 9
  | .TEN => 10
  | .JACK => 11
  | .QUEEN => 12
  | .KING => 13

/-- A playing card, from american_cards.rs. -/
structure Card where
  suit : CardSuit
  rank : CardRank
deriving DecidableEq, Repr

/-- `Card::check_alternate_colors_and_descending_rank` from american_cards.rs. -/
def check_alternate_colors_and_descending_rank (first second : Card) : Bool :=
  (rankVal second.rank + 1 = rankVal first.rank) &&
    (match second.suit with
     | .DIAMONDS | .HEARTS =>
       first.suit = CardSuit.CLUBS || first.suit = CardSuit.SPADES
     | .CLUBS | .SPADES =>
       first.suit = CardSuit.DIAMONDS || first.suit = CardSuit.HEARTS)

/-- Spec-side notion used by claim C8: {Diamonds, Hearts} are red,
{Clubs, Spades} are black. -/
def isRed (s : CardSuit) : Bool :=
  s = CardSuit.DIAMONDS || s = CardSuit.HEARTS

/-! ## Deck (deck.rs) -/

/-- The stock/waste deck, from deck.rs. -/
structure Deck where
  stock : List Card
  waste : List Card
  take_caused_flip : List Bool
deriving DecidableEq, Repr

/-- Value object `DeckStatus` from deck.rs. -/
structure DeckStatus where
  cards_on_waste : Nat
  cards_on_stock : Nat
  top_card_on_waste : Option Card
deriving DecidableEq, Repr

/-- `Deck::take` from deck.rs: if the stock is empty and the waste is not,
flip the reversed waste onto the stock (recording the flip); then pop one
card from the stock onto the waste if possible. -/
def Deck.take (d : Deck) : Deck :=
  let d1 :=
    if d.stock = [] ∧ ¬ d.waste = [] then
      { stock := d.stock ++ d.waste.reverse, waste := [],
        take_caused_flip := d.take_caused_flip ++ [true] }
    else
      { d with take_caused_flip := d.take_caused_flip ++ [false] }
  match d1.stock.getLast? with
  | some card => { d1 with stock := d1.stock.dropLast, waste := d1.waste ++ [card] }
  | none => d1

/-- `Deck::new` from deck.rs: all cards to the stock, then one `take`. -/
def Deck.new (cards : List Card) : Deck :=
  Deck.take { stock := cards, waste := [], take_caused_flip := [] }

/-- `Deck::get_status` from deck.rs. -/
def Deck.get_status (d : Deck) : DeckStatus :=
  { cards_on_waste := d.waste.length
    cards_on_stock := d.stock.length
    top_card_on_waste := d.waste.getLast? }

/-- `Deck::undo_take` from deck.rs. -/
def Deck.undo_take (d : Deck) : Deck :=
  let d1 :=
    match d.waste.getLast? with
    | some card => { d with waste := d.waste.dropLast, stock := d.stock ++ [card] }
    | none => d
  let flipped := d1.take_caused_flip.getLast?.getD false
  let d2 := { d1 with take_caused_flip := d1.take_caused_flip.dropLast }
  if flipped ∧ d2.waste = [] ∧ ¬ d2.stock = [] then
    { d2 with stock := [], waste := d2.waste ++ d2.stock.reverse }
  else d2

/-- `<Deck as CardOrigin>::try_peek` from deck.rs. -/
def Deck.try_peek (d : Deck) (number : Nat) : Option (List Card) :=
  if number = 1 ∧ d.waste.length > 0 then
    some (d.waste.drop (d.waste.length - 1))
  else none

/-- `<Deck as CardOrigin>::peek` from deck.rs; also returns the new deck. -/
def Deck.peek (d : Deck) (number : Nat) : Deck × List Card :=
  if number = 1 then
    match d.waste.getLast? with
    | some card => ({ d with waste := d.waste.dropLast }, [card])
    | none => (d, [])
  else (d, [])

/-- `<Deck as CardOrigin>::undo_peek` from deck.rs. -/
def Deck.undo_peek (d : Deck) (cards : List Card) : Deck :=
  match cards with
  | [c] => { d with waste := d.waste ++ [c] }
  | _ => d

/-! ## Pile (pile.rs) -/

/-- A pile, from pile.rs. -/
structure Pile where
  cards : List Card
deriving DecidableEq, Repr

/-- Value object `PileStatus` from pile.rs. -/
structure PileStatus where
  top_card : Option Card
  num_cards : Nat
deriving DecidableEq, Repr

/-- `Pile::new` from pile.rs. -/
def Pile.new : Pile := { cards := [] }

/-- `Pile::get_status` from pile.rs. -/
def Pile.get_status (p : Pile) : PileStatus :=
  { top_card := p.cards.getLast?, num_cards := p.cards.length }

/-- `<Pile as CardOrigin>::try_peek` from pile.rs. -/
def Pile.try_peek (p : Pile) (number : Nat) : Option (List Card) :=
  if number = 1 ∧ ¬ p.cards = [] then
    some (p.cards.drop (p.cards.length - 1))
  else none

/-- `<Pile as CardOrigin>::peek` from pile.rs; also returns the new pile. -/
def Pile.peek (p : Pile) (number : Nat) : Pile × List Card :=
  if number = 1 then
    match p.cards.getLast? with
    | some card => ({ cards := p.cards.dropLast }, [card])
    | none => (p, [])
  else (p, [])

/-- `<Pile as CardOrigin>::undo_peek` from pile.rs. -/
def Pile.undo_peek (p : Pile) (cards : List Card) : Pile :=
  match cards with
  | [c] => { cards := p.cards ++ [c] }
  | _ => p

/-- `<Pile as CardDestination>::try_poke` from pile.rs. -/
def Pile.try_poke (p : Pile) (cards : List Card) : Bool :=
  match cards with
  | [c] =>
    match p.cards.getLast? with
    | none => c.rank = CardRank.ACE
    | some last_card =>
      last_card.suit = c.suit && rankVal c.rank = rankVal last_card.rank + 1
  | _ => false

/-- `<Pile as CardDestination>::poke` from pile.rs. -/
def Pile.poke (p : Pile) (cards : List Card) : Pile :=
  if p.try_poke cards then
    match cards with
    | c :: _ => { cards := p.cards ++ [c] }
    | [] => p
  else p

/-- `<Pile as CardDestination>::undo_poke` from pile.rs. -/
def Pile.undo_poke (p : Pile) (number : Nat) : Pile × List Card :=
  if number = 1 then
    match p.cards.getLast? with
    | some card => ({ cards := p.cards.dropLast }, [card])
    | none => (p, [])
  else (p, [])

/-! ## Foundation (foundation.rs) -/

/-- A foundation (tableau column), from foundation.rs. -/
structure Foundation where
  hidden : List Card
  visible : List Card
  peek_caused_flip : List Bool
deriving DecidableEq, Repr

/-- Value object `FoundationStatus` from foundation.rs. -/
structure FoundationStatus where
  num_hidden : Nat
  visible : List Card
deriving DecidableEq, Repr

/-- `Foundation::new` from foundation.rs: the slice `cards[..len - 1]`
goes to hidden and `cards[len - 1 ..]` to visible. On an empty input the
Rust slicing panics, modelled by `none`. -/
def Foundation.new (cards : List Card) : Option Foundation :=
  if cards = [] then none
  else
    some { hidden := cards.dropLast
           visible := cards.drop (cards.length - 1)
           peek_caused_flip := [] }

/-- `Foundation::can_peek` from foundation.rs. -/
def Foundation.can_peek (f : Foundation) (number : Nat) : Bool :=
  decide (number > 0 ∧ number ≤ f.visible.length)

/-- `Foundation::get_status` from foundation.rs. -/
def Foundation.get_status (f : Foundation) : FoundationStatus :=
  { num_hidden := f.hidden.length, visible := f.visible }

/-- `<Foundation as CardOrigin>::try_peek` from foundation.rs. -/
def Foundation.try_peek (f : Foundation) (number : Nat) : Option (List Card) :=
  if f.can_peek number then
    some (f.visible.drop (f.visible.length - number))
  else none

/-- `<Foundation as CardOrigin>::peek` from foundation.rs: drain the top
`number` visible cards; if the visible part becomes empty, pop one hidden
card into it (a flip); record whether a flip happened. -/
def Foundation.peek (f : Foundation) (number : Nat) : Foundation × List Card :=
  if f.can_peek number then
    let res := f.visible.drop (f.visible.length - number)
    let vis := f.visible.take (f.visible.length - number)
    match vis, f.hidden.getLast? with
    | [], some card =>
      ({ hidden := f.hidden.dropLast, visible := [card],
         peek_caused_flip := f.peek_caused_flip ++ [true] }, res)
    | _, _ =>
      ({ f with
          visible := vis
          peek_caused_flip := f.peek_caused_flip ++ [false] }, res)
  else (f, [])

/-- `<Foundation as CardOrigin>::undo_peek` from foundation.rs. When the
matching peek flipped a hidden card and the visible part currently holds
exactly that one card, re-hide it (push the single visible card back onto
hidden), then append the returned cards. -/
def Foundation.undo_peek (f : Foundation) (cards : List Card) : Foundation :=
  let flipped := f.peek_caused_flip.getLast?.getD false
  let f1 := { f with peek_caused_flip := f.peek_caused_flip.dropLast }
  let f2 :=
    if flipped ∧ f1.visible.length = 1 ∧ cards.length > 0 then
      { f1 with hidden := f1.hidden ++ f1.visible, visible := [] }
    else f1
  { f2 with visible := f2.visible ++ cards }

/-- `<Foundation as CardDestination>::try_poke` from foundation.rs. -/
def Foundation.try_poke (f : Foundation) (cards : List Card) : Bool :=
  match cards with
  | [] => false
  | c :: _ =>
    match f.visible.getLast? with
    | none => c.rank = CardRank.KING
    | some top => check_alternate_colors_and_descending_rank top c

/-- `<Foundation as CardDestination>::poke` from foundation.rs. -/
def Foundation.poke (f : Foundation) (cards : List Card) : Foundation :=
  if f.try_poke cards then { f with visible := f.visible ++ cards } else f

/-- `<Foundation as CardDestination>::undo_poke` from foundation.rs. -/
def Foundation.undo_poke (f : Foundation) (number : Nat) : Foundation × List Card :=
  if f.visible.length ≥ number then
    ({ f with visible := f.visible.take (f.visible.length - number) },
     f.visible.drop (f.visible.length - number))
  else (f, [])

/-! ## Move protocol (card_containers.rs, trait CardMover default methods) -/

/-- `CardMover::move_cards` from card_containers.rs, generic over the
origin and destination operations. Returns the Rust boolean together
with the (possibly) updated origin and destination. -/
def moverMoveCards {α β : Type}
    (tryPeekFn : α → Nat → Option (List Card)) (peekFn : α → Nat → α × List Card)
    (tryPokeFn : β → List Card → Bool) (pokeFn : β → List Card → β)
    (origin : α) (destination : β) (number : Nat) : Bool × α × β :=
  match tryPeekFn origin number with
  | some try_cards =>
    if tryPokeFn destination try_cards then
      let peeked := peekFn origin number
      (true, peeked.1, pokeFn destination peeked.2)
    else (false, origin, destination)
  | none => (false, origin, destination)

/-- `CardMover::undo_move_cards` from card_containers.rs:
`origin.undo_peek(&destination.undo_poke(number))`. -/
def moverUndoMoveCards {α β : Type}
    (undoPeekFn : α → List Card → α) (undoPokeFn : β → Nat → β × List Card)
    (origin : α) (destination : β) (number : Nat) : α × β :=
  let undone := undoPokeFn destination number
  (undoPeekFn origin undone.2, undone.1)

/-! ## Game aggregate (klondike/mod.rs) -/

/-- `CardHolder` from klondike/mod.rs. -/
inductive CardHolder where
  | DECK
  | PILE (idx : Nat)
  | FOUNDATION (idx : Nat)
deriving DecidableEq, Repr

/-- `KlondikeAction` from klondike/mod.rs. -/
inductive KlondikeAction where
  | MOVE (origin destination : CardHolder) (number : Nat)
  | TAKE
deriving DecidableEq, Repr

/-- The game aggregate `KlondikeMockable<SimpleCardMover>` from
klondike/mod.rs. The mover field carries no state and is omitted. -/
structure Klondike where
  deck : Deck
  piles : List Pile
  foundations : List Foundation
  history : List KlondikeAction
deriving DecidableEq, Repr

/-- `KlondikeStatus` from klondike/mod.rs. -/
structure KlondikeStatus where
  deck : DeckStatus
  piles : List PileStatus
  foundations : List FoundationStatus
deriving DecidableEq, Repr

/-- `KlondikeMockable::get_status` from klondike/mod.rs. -/
def Klondike.get_status (k : Klondike) : KlondikeStatus :=
  { deck := k.deck.get_status
    piles := k.piles.map Pile.get_status
    foundations := k.foundations.map Foundation.get_status }

/-- The FOUNDATION → FOUNDATION arm of `do_move_cards` (klondike/mod.rs):
sanity check `origin_idx == dest_idx || elements < origin_idx ||
elements < dest_idx`, then `extract_two_mutable_elements` (whose
out-of-range indexing panics, modelled by `none`) and the mover. -/
def moveFF (k : Klondike) (origin_idx dest_idx number : Nat) (is_undo : Bool) :
    Option (Bool × Klondike) :=
  let elements := k.foundations.length
  if origin_idx = dest_idx ∨ elements < origin_idx ∨ elements < dest_idx then
    some (false, k)
  else
    match k.foundations[origin_idx]?, k.foundations[dest_idx]? with
    | some o, some d =>
      if is_undo then
        let r := moverUndoMoveCards Foundation.undo_peek Foundation.undo_poke o d number
        some (true, { k with
          foundations := (k.foundations.set origin_idx r.1).set dest_idx r.2 })
      else
        let r := moverMoveCards Foundation.try_peek Foundation.peek
          Foundation.try_poke Foundation.poke o d number
        some (r.1, { k with
          foundations := (k.foundations.set origin_idx r.2.1).set dest_idx r.2.2 })
    | _, _ => none

/-- The PILE → FOUNDATION arm of `do_move_cards` (klondike/mod.rs);
the direct indexing panics when out of range, modelled by `none`. -/
def movePF (k : Klondike) (origin_idx dest_idx number : Nat) (is_undo : Bool) :
    Option (Bool × Klondike) :=
  match k.piles[origin_idx]?, k.foundations[dest_idx]? with
  | some o, some d =>
    if is_undo then
      let r := moverUndoMoveCards Pile.undo_peek Foundation.undo_poke o d number
      some (true, { k with
        piles := k.piles.set origin_idx r.1
        foundations := k.foundations.set dest_idx r.2 })
    else
      let r := moverMoveCards Pile.try_peek Pile.peek
        Foundation.try_poke Foundation.poke o d number
      some (r.1, { k with
        piles := k.piles.set origin_idx r.2.1
        foundations := k.foundations.set dest_idx r.2.2 })
  | _, _ => none

/-- The DECK → FOUNDATION arm of `do_move_cards` (klondike/mod.rs). -/
def moveDF (k : Klondike) (dest_idx number : Nat) (is_undo : Bool) :
    Option (Bool × Klondike) :=
  match k.foundations[dest_idx]? with
  | some d =>
    if is_undo then
      let r := moverUndoMoveCards Deck.undo_peek Foundation.undo_poke k.deck d number
      some (true, { k with
        deck := r.1
        foundations := k.foundations.set dest_idx r.2 })
    else
      let r := moverMoveCards Deck.try_peek Deck.peek
        Foundation.try_poke Foundation.poke k.deck d number
      some (r.1, { k with
        deck := r.2.1
        foundations := k.foundations.set dest_idx r.2.2 })
  | none => none

/-- The FOUNDATION → PILE arm of `do_move_cards` (klondike/mod.rs). -/
def moveFP (k : Klondike) (origin_idx dest_idx number : Nat) (is_undo : Bool) :
    Option (Bool × Klondike) :=
  match k.foundations[origin_idx]?, k.piles[dest_idx]? with
  | some o, some d =>
    if is_undo then
      let r := moverUndoMoveCards Foundation.undo_peek Pile.undo_poke o d number
      some (true, { k with
        foundations := k.foundations.set origin_idx r.1
        piles := k.piles.set dest_idx r.2 })
    else
      let r := moverMoveCards Foundation.try_peek Foundation.peek
        Pile.try_poke Pile.poke o d number
      some (r.1, { k with
        foundations := k.foundations.set origin_idx r.2.1
        piles := k.piles.set dest_idx r.2.2 })
  | _, _ => none

/-- The PILE → PILE arm of `do_move_cards` (klondike/mod.rs), with the
same sanity check as the foundation/foundation arm. -/
def movePP (k : Klondike) (origin_idx dest_idx number : Nat) (is_undo : Bool) :
    Option (Bool × Klondike) :=
  let elements := k.piles.length
  if origin_idx = dest_idx ∨ elements < origin_idx ∨ elements < dest_idx then
    some (false, k)
  else
    match k.piles[origin_idx]?, k.piles[dest_idx]? with
    | some o, some d =>
      if is_undo then
        let r := moverUndoMoveCards Pile.undo_peek Pile.undo_poke o d number
        some (true, { k with
          piles := (k.piles.set origin_idx r.1).set dest_idx r.2 })
      else
        let r := moverMoveCards Pile.try_peek Pile.peek
          Pile.try_poke Pile.poke o d number
        some (r.1, { k with
          piles := (k.piles.set origin_idx r.2.1).set dest_idx r.2.2 })
    | _, _ => none

/-- The DECK → PILE arm of `do_move_cards` (klondike/mod.rs). -/
def moveDP (k : Klondike) (dest_idx number : Nat) (is_undo : Bool) :
    Option (Bool × Klondike) :=
  match k.piles[dest_idx]? with
  | some d =>
    if is_undo then
      let r := moverUndoMoveCards Deck.undo_peek Pile.undo_poke k.deck d number
      some (true, { k with
        deck := r.1
        piles := k.piles.set dest_idx r.2 })
    else
      let r := moverMoveCards Deck.try_peek Deck.peek
        Pile.try_poke Pile.poke k.deck d number
      some (r.1, { k with
        deck := r.2.1
        piles := k.piles.set dest_idx r.2.2 })
  | none => none

/-- `KlondikeMockable::do_move_cards` from klondike/mod.rs: dispatch on
the destination, then the origin; moving to the deck is always false. -/
def Klondike.do_move_cards (k : Klondike) (origin destination : CardHolder)
    (number : Nat) (is_undo : Bool) : Option (Bool × Klondike) :=
  match destination with
  | .FOUNDATION dest_idx =>
    match origin with
    | .FOUNDATION origin_idx => moveFF k origin_idx dest_idx number is_undo
    | .PILE origin_idx => movePF k origin_idx dest_idx number is_undo
    | .DECK => moveDF k dest_idx number is_undo
  | .PILE dest_idx =>
    match origin with
    | .FOUNDATION origin_idx => moveFP k origin_idx dest_idx number is_undo
    | .PILE origin_idx => movePP k origin_idx dest_idx number is_undo
    | .DECK => moveDP k dest_idx number is_undo
  | .DECK => some (false, k)

/-- `KlondikeMockable::move_cards` from klondike/mod.rs: on success the
action is appended to the history. -/
def Klondike.move_cards (k : Klondike) (origin destination : CardHolder)
    (number : Nat) : Option (Bool × Klondike) :=
  match k.do_move_cards origin destination number false with
  | some (true, k1) =>
    some (true, { k1 with
      history := k1.history ++ [KlondikeAction.MOVE origin destination number] })
  | some (false, k1) => some (false, k1)
  | none => none

/-- `KlondikeMockable::take` from klondike/mod.rs. -/
def Klondike.take (k : Klondike) : Klondike :=
  { k with deck := k.deck.take, history := k.history ++ [KlondikeAction.TAKE] }

/-- `KlondikeMockable::undo` from klondike/mod.rs: pop the last history
entry and replay its inverse; no-op when the history is empty. -/
def Klondike.undo (k : Klondike) : Option Klondike :=
  match k.history.getLast? with
  | none => some k
  | some (KlondikeAction.MOVE origin destination number) =>
    match Klondike.do_move_cards { k with history := k.history.dropLast }
        origin destination number true with
    | some r => some r.2
    | none => none
  | some KlondikeAction.TAKE =>
    some { k with deck := k.deck.undo_take, history := k.history.dropLast }

/-- The loop body of `KlondikeMockable::to_pile` from klondike/mod.rs,
over the remaining pile indices. -/
def Klondike.to_pile_aux (origin : CardHolder) :
    Klondike → List Nat → Option (Bool × Klondike)
  | k, [] => some (false, k)
  | k, i :: rest =>
    match k.move_cards origin (CardHolder.PILE i) 1 with
    | some (true, k1) => some (true, k1)
    | some (false, k1) => Klondike.to_pile_aux origin k1 rest
    | none => none

/-- `KlondikeMockable::to_pile` from klondike/mod.rs: try each pile index
in ascending order, stopping at the first success. -/
def Klondike.to_pile (k : Klondike) (origin : CardHolder) : Option (Bool × Klondike) :=
  Klondike.to_pile_aux origin k (List.range k.piles.length)

/-- The dealing loop of `KlondikeMockable::new_with_mover`
(klondike/mod.rs): one cascade per requested size, consuming the card
list; an out-of-range slice panics, modelled by `none`. -/
def dealCascades : List Nat → List Card → Option (List Foundation × List Card)
  | [], cards => some ([], cards)
  | i :: rest, cards =>
    if i ≤ cards.length then
      match Foundation.new (cards.take i), dealCascades rest (cards.drop i) with
      | some f, some fr => some (f :: fr.1, fr.2)
      | _, _ => none
    else none

/-- `KlondikeMockable::new_with_mover` from klondike/mod.rs, taking the
shuffled card list as a parameter: four empty piles, seven cascades of
sizes 1..7, and a deck built from the remaining cards; empty history. -/
def Klondike.new_with (cards : List Card) : Option Klondike :=
  match dealCascades [1, 2, 3, 4, 5, 6, 7] cards with
  | some fr =>
    some { deck := Deck.new fr.2
           piles := [Pile.new, Pile.new, Pile.new, Pile.new]
           foundations := fr.1
           history := [] }
  | none => none

/-! ## Card counting and operation sequences (for the conservation claim) -/

/-- Number of cards held by a deck (stock plus waste). -/
def Deck.size (d : Deck) : Nat := d.stock.length + d.waste.length

/-- Number of cards held by a pile. -/
def Pile.size (p : Pile) : Nat := p.cards.length

/-- Number of cards held by a foundation (hidden plus visible). -/
def Foundation.size (f : Foundation) : Nat := f.hidden.length + f.visible.length

/-- Total number of cards across all the containers of a game. -/
def Klondike.cardCount (k : Klondike) : Nat :=
  k.deck.size + (k.piles.map Pile.size).sum + (k.foundations.map Foundation.size).sum

/-- One call of the public game interface. -/
inductive Op where
  | move (origin destination : CardHolder) (number : Nat)
  | take
  | toPile (origin : CardHolder)
  | undo
deriving DecidableEq, Repr

/-- Run one public call; `none` models a panic inside the call. -/
def applyOp (k : Klondike) : Op → Option Klondike
  | .move origin destination number =>
    (k.move_cards origin destination number).map (fun r => r.2)
  | .take => some k.take
  | .toPile origin => (k.to_pile origin).map (fun r => r.2)
  | .undo => k.undo

/-- Run a sequence of public calls. -/
def applyOps : Klondike → List Op → Option Klondike
  | k, [] => some k
  | k, op :: rest =>
    match applyOp k op with
    | some k1 => applyOps k1 rest
    | none => none

/-- A history entry is well formed when a move whose origin is a pile or
the deck carries count one; such entries are the only ones the public
interface ever records, because those origins refuse any other count. -/
def entryOK : KlondikeAction → Prop
  | .MOVE (.PILE _) _ n => n = 1
  | .MOVE .DECK _ n => n = 1
  | _ => True

/-- Every entry of the history is well formed. -/
def HistOK (h : List KlondikeAction) : Prop := ∀ e ∈ h, entryOK e

/-! ## Example fixtures used by witnesses -/

/-- A concrete card. -/
def exCardA : Card := { suit := CardSuit.HEARTS, rank := CardRank.ACE }

/-- A second concrete card. -/
def exCardK : Card := { suit := CardSuit.SPADES, rank := CardRank.KING }

/-- A concrete deck with an empty stock and a two-card waste. -/
def exDeck2 : Deck :=
  { stock := [], waste := [exCardA, exCardK], take_caused_flip := [] }

/-- A concrete foundation holding one hidden and one visible card. -/
def exFound1 : Foundation :=
  { hidden := [exCardK], visible := [exCardA], peek_caused_flip := [] }

/-- A concrete game with one empty pile and one foundation showing an ace. -/
def exGame1 : Klondike :=
  { deck := { stock := [], waste := [], take_caused_flip := [] }
    piles := [Pile.new]
    foundations := [{ hidden := [], visible := [exCardA], peek_caused_flip := [] }]
    history := [] }

/-- The state reached from `exGame1` by moving the ace onto the pile. -/
def exGame1Moved : Klondike :=
  { deck := { stock := [], waste := [], take_caused_flip := [] }
    piles := [{ cards := [exCardA] }]
    foundations := [{ hidden := [], visible := [], peek_caused_flip := [false] }]
    history := [KlondikeAction.MOVE (CardHolder.FOUNDATION 0) (CardHolder.PILE 0) 1] }

/-- A concrete game with the new-game shape: four piles, seven foundations. -/
def exGame4 : Klondike :=
  { deck := { stock := [], waste := [], take_caused_flip := [] }
    piles := [Pile.new, Pile.new, Pile.new, Pile.new]
    foundations :=
      [{ hidden := [], visible := [exCardA], peek_caused_flip := [] },
       { hidden := [], visible := [exCardA], peek_caused_flip := [] },
       { hidden := [], visible := [exCardA], peek_caused_flip := [] },
       { hidden := [], visible := [exCardA], peek_caused_flip := [] },
       { hidden := [], visible := [exCardA], peek_caused_flip := [] },
       { hidden := [], visible := [exCardA], peek_caused_flip := [] },
       { hidden := [], visible := [exCardA], peek_caused_flip := [] }]
    history := [] }

/-- A 52-card list (card identities are irrelevant to the deal shape). -/
def exCards52 : List Card := List.replicate 52 exCardA

/-- The game dealt from `exCards52`: cascades of sizes one to seven and a
24-card deck whose construction moved one card onto the waste. -/
def exNewGame : Klondike :=
  { deck := { stock := List.replicate 23 exCardA, waste := [exCardA]
              take_caused_flip := [false] }
    piles := [Pile.new, Pile.new, Pile.new, Pile.new]
    foundations :=
      [{ hidden := List.replicate 0 exCardA, visible := [exCardA], peek_caused_flip := [] },
       { hidden := List.replicate 1 exCardA, visible := [exCardA], peek_caused_flip := [] },
       { hidden := List.replicate 2 exCardA, visible := [exCardA], peek_caused_flip := [] },
       { hidden := List.replicate 3 exCardA, visible := [exCardA], peek_caused_flip := [] },
       { hidden := List.replicate 4 exCardA, visible := [exCardA], peek_caused_flip := [] },
       { hidden := List.replicate 5 exCardA, visible := [exCardA], peek_caused_flip := [] },
       { hidden := List.replicate 6 exCardA, visible := [exCardA], peek_caused_flip := [] }]
    history := [] }

/-! ## List helper lemmas -/

theorem list_set_self {α : Type} : ∀ (l : List α) (i : Nat) (a : α),
    l[i]? = some a → l.set i a = l
  | [], _, _, h => by simp at h
  | x :: xs, 0, a, h => by simp at h; simp [h]
  | x :: xs, i + 1, a, h => by
    simp at h
    simp [List.set, list_set_self xs i a h]

theorem list_getElem?_set_self {α : Type} : ∀ (l : List α) (i : Nat) (a x : α),
    l[i]? = some x → (l.set i a)[i]? = some a
  | [], _, _, _, h => by simp at h
  | y :: ys, 0, a, x, _ => by simp
  | y :: ys, i + 1, a, x, h => by
    simp at h
    simpa using list_getElem?_set_self ys i a x h

theorem list_sum_map_set {α : Type} (f : α → Nat) :
    ∀ (l : List α) (i : Nat) (a x : α), l[i]? = some x →
      ((l.set i a).map f).sum + f x = (l.map f).sum + f a
  | [], _, _, _, h => by simp at h
  | y :: ys, 0, a, x, h => by
    simp at h
    subst h
    simp [Nat.add_comm, Nat.add_left_comm]
  | y :: ys, i + 1, a, x, h => by
    simp at h
    have ih := list_sum_map_set f ys i a x h
    simp [List.set] at ih ⊢
    omega

theorem list_mem_of_getLast? {α : Type} : ∀ (l : List α) (a : α),
    l.getLast? = some a → a ∈ l
  | [], _, h => by simp at h
  | [x], a, h => by simp at h; simp [h]
  | x :: y :: ys, a, h => by
    rw [List.getLast?_cons_cons] at h
    exact List.mem_cons_of_mem x (list_mem_of_getLast? (y :: ys) a h)

theorem list_concat_of_ne_nil {α : Type} (l : List α) (h : l ≠ []) :
    ∃ l2 a, l = l2 ++ [a] := by
  rcases List.eq_nil_or_concat l with h1 | ⟨L, b, h1⟩
  · exact absurd h1 h
  · exact ⟨L, b, by simpa using h1⟩

/-! ## Container lemmas: origins -/

theorem deck_origin_ops : ∀ (d : Deck) (n : Nat) (cs : List Card),
    d.try_peek n = some cs →
    (d.peek n).2 = cs ∧ cs.length = n ∧
      Deck.undo_peek (d.peek n).1 cs = d ∧ (d.peek n).1.size + n = d.size := by
  intro ⟨st, wa, fl⟩ n cs h
  unfold Deck.try_peek at h
  split at h
  case isFalse => simp at h
  case isTrue hn =>
    obtain ⟨hn1, hw⟩ := hn
    subst hn1
    simp only [Option.some.injEq] at h
    have hne : wa ≠ [] := by
      intro hx
      subst hx
      simp at hw
    obtain ⟨w, a, rfl⟩ := list_concat_of_ne_nil wa hne
    have hcs : cs = [a] := by
      rw [← h]
      simp
    subst hcs
    unfold Deck.peek Deck.undo_peek Deck.size
    simp [List.getLast?_concat]
    omega

theorem pile_origin_ops : ∀ (p : Pile) (n : Nat) (cs : List Card),
    p.try_peek n = some cs →
    (p.peek n).2 = cs ∧ cs.length = n ∧
      Pile.undo_peek (p.peek n).1 cs = p ∧ (p.peek n).1.size + n = p.size := by
  intro ⟨cards⟩ n cs h
  unfold Pile.try_peek at h
  split at h
  case isFalse => simp at h
  case isTrue hn =>
    obtain ⟨hn1, hne0⟩ := hn
    subst hn1
    simp only [Option.some.injEq] at h
    have hne : cards ≠ [] := hne0
    obtain ⟨w, a, rfl⟩ := list_concat_of_ne_nil cards hne
    have hcs : cs = [a] := by
      rw [← h]
      simp
    subst hcs
    unfold Pile.peek Pile.undo_peek Pile.size
    simp [List.getLast?_concat]

theorem foundation_origin_ops : ∀ (f : Foundation) (n : Nat) (cs : List Card),
    f.try_peek n = some cs →
    (f.peek n).2 = cs ∧ cs.length = n ∧
      Foundation.undo_peek (f.peek n).1 cs = f ∧ (f.peek n).1.size + n = f.size := by
  intro ⟨hid, vis, fl⟩ n cs h
  unfold Foundation.try_peek at h
  split at h
  case isFalse => simp at h
  case isTrue hcan =>
    simp only [Option.some.injEq] at h
    have hcan2 : 0 < n ∧ n ≤ vis.length := by
      have h2 := hcan
      unfold Foundation.can_peek at h2
      simpa using h2
    obtain ⟨hn0, hnle⟩ := hcan2
    have hvpos : 0 < vis.length := by omega
    subst h
    rcases htk : vis.take (vis.length - n) with _ | ⟨c0, tk⟩
    · have hlen : vis.length = n := by
        rcases List.take_eq_nil_iff.mp htk with h1 | h1
        · omega
        · subst h1
          simp at hvpos
      have hdrop : vis.drop (vis.length - n) = vis := by
        rw [hlen]
        simp
      rcases hhl : hid.getLast? with _ | c
      · have hpeek : Foundation.peek ⟨hid, vis, fl⟩ n
            = (⟨hid, [], fl ++ [false]⟩, vis.drop (vis.length - n)) := by
          unfold Foundation.peek
          simp only [hcan, if_true]
          rw [htk, hhl]
        rw [hpeek]
        refine ⟨rfl, by simp; omega, ?_, ?_⟩
        · unfold Foundation.undo_peek
          simp only [List.getLast?_concat, Option.getD_some, List.dropLast_concat, hdrop]
          simp
        · unfold Foundation.size
          simp
          omega
      · have hpeek : Foundation.peek ⟨hid, vis, fl⟩ n
            = (⟨hid.dropLast, [c], fl ++ [true]⟩, vis.drop (vis.length - n)) := by
          unfold Foundation.peek
          simp only [hcan, if_true]
          rw [htk, hhl]
        rw [hpeek]
        have hne : hid ≠ [] := by
          intro hx
          subst hx
          simp at hhl
        refine ⟨rfl, by simp; omega, ?_, ?_⟩
        · unfold Foundation.undo_peek
          simp only [List.getLast?_concat, Option.getD_some, List.dropLast_concat, hdrop]
          simp [hvpos]
          exact List.dropLast_append_getLast? c (Option.mem_def.mpr hhl)
        · unfold Foundation.size
          have hpos : 0 < hid.length := List.length_pos.mpr hne
          simp
          omega
    · have hlen2 : (c0 :: tk).length = vis.length - n := by
        rw [← htk]
        simp
      have hpeek : Foundation.peek ⟨hid, vis, fl⟩ n
          = (⟨hid, c0 :: tk, fl ++ [false]⟩, vis.drop (vis.length - n)) := by
        unfold Foundation.peek
        simp only [hcan, if_true]
        rw [htk]
      rw [hpeek]
      refine ⟨rfl, by simp; omega, ?_, ?_⟩
      · unfold Foundation.undo_peek
        simp only [List.getLast?_concat, Option.getD_some, List.dropLast_concat]
        simp
        rw [← List.cons_append, ← htk, List.take_append_drop]
      · unfold Foundation.size
        simp at hlen2 ⊢
        omega

theorem pile_dest_ops (p : Pile) (cs : List Card) (h : p.try_poke cs = true) :
    Pile.undo_poke (p.poke cs) cs.length = (p, cs) ∧
      (p.poke cs).size = p.size + cs.length := by
  rcases cs with _ | ⟨c, rest⟩
  · simp [Pile.try_poke] at h
  · rcases rest with _ | ⟨c2, rest2⟩
    · have hpoke : p.poke [c] = { cards := p.cards ++ [c] } := by
        unfold Pile.poke
        simp [h]
      rw [hpoke]
      unfold Pile.undo_poke Pile.size
      simp [List.getLast?_concat]
    · simp [Pile.try_poke] at h

theorem foundation_dest_ops (f : Foundation) (cs : List Card) (h : f.try_poke cs = true) :
    Foundation.undo_poke (f.poke cs) cs.length = (f, cs) ∧
      (f.poke cs).size = f.size + cs.length := by
  have hpoke : f.poke cs = { f with visible := f.visible ++ cs } := by
    unfold Foundation.poke
    simp [h]
  rw [hpoke]
  unfold Foundation.undo_poke Foundation.size
  have hge : (f.visible ++ cs).length ≥ cs.length := by simp
  rw [if_pos hge]
  have hsub : (f.visible ++ cs).length - cs.length = f.visible.length := by
    simp
  rw [hsub, List.take_left, List.drop_left]
  simp
  omega

theorem mover_false {α β : Type}
    (tryPeekFn : α → Nat → Option (List Card)) (peekFn : α → Nat → α × List Card)
    (tryPokeFn : β → List Card → Bool) (pokeFn : β → List Card → β)
    (origin : α) (destination : β) (number : Nat) (o2 : α) (d2 : β)
    (h : moverMoveCards tryPeekFn peekFn tryPokeFn pokeFn origin destination number
      = (false, o2, d2)) : o2 = origin ∧ d2 = destination := by
  unfold moverMoveCards at h
  split at h
  case h_2 =>
    simp [Prod.ext_iff] at h
    exact ⟨h.1.symm, h.2.symm⟩
  case h_1 cs hcs =>
    split at h
    · simp at h
    · simp [Prod.ext_iff] at h
      exact ⟨h.1.symm, h.2.symm⟩

theorem mover_inverse {α β : Type}
    (tryPeekFn : α → Nat → Option (List Card)) (peekFn : α → Nat → α × List Card)
    (undoPeekFn : α → List Card → α)
    (tryPokeFn : β → List Card → Bool) (pokeFn : β → List Card → β)
    (undoPokeFn : β → Nat → β × List Card)
    (hO : ∀ o n cs, tryPeekFn o n = some cs →
      (peekFn o n).2 = cs ∧ cs.length = n ∧ undoPeekFn (peekFn o n).1 cs = o)
    (hD : ∀ d cs, tryPokeFn d cs = true → undoPokeFn (pokeFn d cs) cs.length = (d, cs))
    (origin : α) (destination : β) (number : Nat) (o2 : α) (d2 : β)
    (h : moverMoveCards tryPeekFn peekFn tryPokeFn pokeFn origin destination number
      = (true, o2, d2)) :
    moverUndoMoveCards undoPeekFn undoPokeFn o2 d2 number = (origin, destination) := by
  unfold moverMoveCards at h
  split at h
  case h_2 => simp at h
  case h_1 cs hcs =>
    split at h
    case isFalse => simp at h
    case isTrue htp =>
      obtain ⟨h1, h2, h3⟩ := hO origin number cs hcs
      simp only [Prod.mk.injEq, true_and] at h
      obtain ⟨ho2, hd2⟩ := h
      unfold moverUndoMoveCards
      have h4 := hD destination cs htp
      rw [h2] at h4
      rw [h1] at hd2
      rw [hd2] at h4
      rw [h4]
      simp only [Prod.mk.injEq]
      rw [← ho2]
      exact ⟨h3, trivial⟩

theorem mover_count {α β : Type} (sa : α → Nat) (sb : β → Nat)
    (tryPeekFn : α → Nat → Option (List Card)) (peekFn : α → Nat → α × List Card)
    (tryPokeFn : β → List Card → Bool) (pokeFn : β → List Card → β)
    (hO : ∀ o n cs, tryPeekFn o n = some cs →
      (peekFn o n).2 = cs ∧ cs.length = n ∧ sa (peekFn o n).1 + n = sa o)
    (hD : ∀ d cs, tryPokeFn d cs = true → sb (pokeFn d cs) = sb d + cs.length)
    (origin : α) (destination : β) (number : Nat) (r : Bool) (o2 : α) (d2 : β)
    (h : moverMoveCards tryPeekFn peekFn tryPokeFn pokeFn origin destination number
      = (r, o2, d2)) :
    sa o2 + sb d2 = sa origin + sb destination := by
  unfold moverMoveCards at h
  split at h
  case h_2 =>
    simp only [Prod.mk.injEq] at h
    rw [← h.2.1, ← h.2.2]
  case h_1 cs hcs =>
    split at h
    case isFalse =>
      simp only [Prod.mk.injEq] at h
      rw [← h.2.1, ← h.2.2]
    case isTrue htp =>
      obtain ⟨h1, h2, h3⟩ := hO origin number cs hcs
      simp only [Prod.mk.injEq] at h
      obtain ⟨hr, ho2, hd2⟩ := h
      rw [← ho2, ← hd2, h1]
      rw [hD destination cs htp]
      omega

theorem foundation_origin_spec (o : Foundation) (n : Nat) (cs : List Card)
    (h : o.try_peek n = some cs) :
    (o.peek n).2 = cs ∧ cs.length = n ∧ Foundation.undo_peek (o.peek n).1 cs = o :=
  ⟨(foundation_origin_ops o n cs h).1, (foundation_origin_ops o n cs h).2.1,
    (foundation_origin_ops o n cs h).2.2.1⟩

theorem foundation_origin_count (o : Foundation) (n : Nat) (cs : List Card)
    (h : o.try_peek n = some cs) :
    (o.peek n).2 = cs ∧ cs.length = n ∧ (o.peek n).1.size + n = o.size :=
  ⟨(foundation_origin_ops o n cs h).1, (foundation_origin_ops o n cs h).2.1,
    (foundation_origin_ops o n cs h).2.2.2⟩

theorem pile_origin_spec (o : Pile) (n : Nat) (cs : List Card)
    (h : o.try_peek n = some cs) :
    (o.peek n).2 = cs ∧ cs.length = n ∧ Pile.undo_peek (o.peek n).1 cs = o :=
  ⟨(pile_origin_ops o n cs h).1, (pile_origin_ops o n cs h).2.1,
    (pile_origin_ops o n cs h).2.2.1⟩

theorem pile_origin_count (o : Pile) (n : Nat) (cs : List Card)
    (h : o.try_peek n = some cs) :
    (o.peek n).2 = cs ∧ cs.length = n ∧ (o.peek n).1.size + n = o.size :=
  ⟨(pile_origin_ops o n cs h).1, (pile_origin_ops o n cs h).2.1,
    (pile_origin_ops o n cs h).2.2.2⟩

theorem deck_origin_spec (o : Deck) (n : Nat) (cs : List Card)
    (h : o.try_peek n = some cs) :
    (o.peek n).2 = cs ∧ cs.length = n ∧ Deck.undo_peek (o.peek n).1 cs = o :=
  ⟨(deck_origin_ops o n cs h).1, (deck_origin_ops o n cs h).2.1,
    (deck_origin_ops o n cs h).2.2.1⟩

theorem deck_origin_count (o : Deck) (n : Nat) (cs : List Card)
    (h : o.try_peek n = some cs) :
    (o.peek n).2 = cs ∧ cs.length = n ∧ (o.peek n).1.size + n = o.size :=
  ⟨(deck_origin_ops o n cs h).1, (deck_origin_ops o n cs h).2.1,
    (deck_origin_ops o n cs h).2.2.2⟩

theorem foundation_dest_spec (d : Foundation) (cs : List Card) (h : d.try_poke cs = true) :
    Foundation.undo_poke (d.poke cs) cs.length = (d, cs) :=
  (foundation_dest_ops d cs h).1

theorem foundation_dest_count (d : Foundation) (cs : List Card) (h : d.try_poke cs = true) :
    (d.poke cs).size = d.size + cs.length :=
  (foundation_dest_ops d cs h).2

theorem pile_dest_spec (d : Pile) (cs : List Card) (h : d.try_poke cs = true) :
    Pile.undo_poke (d.poke cs) cs.length = (d, cs) :=
  (pile_dest_ops d cs h).1

theorem pile_dest_count (d : Pile) (cs : List Card) (h : d.try_poke cs = true) :
    (d.poke cs).size = d.size + cs.length :=
  (pile_dest_ops d cs h).2

theorem moveFF_inverse (k km : Klondike) (i j n : Nat)
    (h : moveFF k i j n false = some (true, km)) :
    moveFF km i j n true = some (true, k) := by
  unfold moveFF at h ⊢
  by_cases hcond : i = j ∨ k.foundations.length < i ∨ k.foundations.length < j
  · rw [if_pos hcond] at h
    simp at h
  · rw [if_neg hcond] at h
    rcases ho : k.foundations[i]? with _ | o
    · rw [ho] at h
      rcases hd : k.foundations[j]? with _ | d <;> rw [hd] at h <;> simp at h
    · rw [ho] at h
      rcases hd : k.foundations[j]? with _ | d
      · rw [hd] at h
        simp at h
      · rw [hd] at h
        rcases hmv : moverMoveCards Foundation.try_peek Foundation.peek Foundation.try_poke
            Foundation.poke o d n with ⟨r1, o2, d2⟩
        simp only [Bool.false_eq_true, if_false] at h
        rw [hmv] at h
        simp only [Option.some.injEq, Prod.mk.injEq] at h
        obtain ⟨hr1, hkm⟩ := h
        subst hr1
        subst hkm
        have hij : i ≠ j := by
          intro hx
          exact hcond (Or.inl hx)
        have h1 : ((k.foundations.set i o2).set j d2)[i]? = some o2 := by
          rw [List.getElem?_set_ne (Ne.symm hij)]
          exact list_getElem?_set_self _ i o2 o ho
        have h2 : ((k.foundations.set i o2).set j d2)[j]? = some d2 := by
          apply list_getElem?_set_self _ j d2 d
          rw [List.getElem?_set_ne hij]
          exact hd
        have hu : moverUndoMoveCards Foundation.undo_peek Foundation.undo_poke o2 d2 n
            = (o, d) :=
          mover_inverse _ _ _ _ _ _ foundation_origin_spec foundation_dest_spec
            o d n o2 d2 hmv
        have hsets : ((((k.foundations.set i o2).set j d2).set i o).set j d)
            = k.foundations := by
          rw [List.set_comm d2 o _ (Ne.symm hij), List.set_set, List.set_set,
            list_set_self _ i o ho, list_set_self _ j d hd]
        simp only [List.length_set]
        rw [if_neg hcond]
        simp only [h1, h2, if_true, hu, hsets]

theorem movePP_inverse (k km : Klondike) (i j n : Nat)
    (h : movePP k i j n false = some (true, km)) :
    movePP km i j n true = some (true, k) := by
  unfold movePP at h ⊢
  by_cases hcond : i = j ∨ k.piles.length < i ∨ k.piles.length < j
  · rw [if_pos hcond] at h
    simp at h
  · rw [if_neg hcond] at h
    rcases ho : k.piles[i]? with _ | o
    · rw [ho] at h
      rcases hd : k.piles[j]? with _ | d <;> rw [hd] at h <;> simp at h
    · rw [ho] at h
      rcases hd : k.piles[j]? with _ | d
      · rw [hd] at h
        simp at h
      · rw [hd] at h
        rcases hmv : moverMoveCards Pile.try_peek Pile.peek Pile.try_poke
            Pile.poke o d n with ⟨r1, o2, d2⟩
        simp only [Bool.false_eq_true, if_false] at h
        rw [hmv] at h
        simp only [Option.some.injEq, Prod.mk.injEq] at h
        obtain ⟨hr1, hkm⟩ := h
        subst hr1
        subst hkm
        have hij : i ≠ j := by
          intro hx
          exact hcond (Or.inl hx)
        have h1 : ((k.piles.set i o2).set j d2)[i]? = some o2 := by
          rw [List.getElem?_set_ne (Ne.symm hij)]
          exact list_getElem?_set_self _ i o2 o ho
        have h2 : ((k.piles.set i o2).set j d2)[j]? = some d2 := by
          apply list_getElem?_set_self _ j d2 d
          rw [List.getElem?_set_ne hij]
          exact hd
        have hu : moverUndoMoveCards Pile.undo_peek Pile.undo_poke o2 d2 n
            = (o, d) :=
          mover_inverse _ _ _ _ _ _ pile_origin_spec pile_dest_spec
            o d n o2 d2 hmv
        have hsets : ((((k.piles.set i o2).set j d2).set i o).set j d)
            = k.piles := by
          rw [List.set_comm d2 o _ (Ne.symm hij), List.set_set, List.set_set,
            list_set_self _ i o ho, list_set_self _ j d hd]
        simp only [List.length_set]
        rw [if_neg hcond]
        simp only [h1, h2, if_true, hu, hsets]

theorem movePF_inverse (k km : Klondike) (i j n : Nat)
    (h : movePF k i j n false = some (true, km)) :
    movePF km i j n true = some (true, k) := by
  unfold movePF at h ⊢
  rcases ho : k.piles[i]? with _ | o
  · rw [ho] at h
    rcases hd : k.foundations[j]? with _ | d <;> rw [hd] at h <;> simp at h
  · rw [ho] at h
    rcases hd : k.foundations[j]? with _ | d
    · rw [hd] at h
      simp at h
    · rw [hd] at h
      rcases hmv : moverMoveCards Pile.try_peek Pile.peek Foundation.try_poke
          Foundation.poke o d n with ⟨r1, o2, d2⟩
      simp only [Bool.false_eq_true, if_false] at h
      rw [hmv] at h
      simp only [Option.some.injEq, Prod.mk.injEq] at h
      obtain ⟨hr1, hkm⟩ := h
      subst hr1
      subst hkm
      have h1 : (k.piles.set i o2)[i]? = some o2 := list_getElem?_set_self _ i o2 o ho
      have h2 : (k.foundations.set j d2)[j]? = some d2 :=
        list_getElem?_set_self _ j d2 d hd
      have hu : moverUndoMoveCards Pile.undo_peek Foundation.undo_poke o2 d2 n
          = (o, d) :=
        mover_inverse _ _ _ _ _ _ pile_origin_spec foundation_dest_spec o d n o2 d2 hmv
      simp only [h1, h2, if_true, hu, List.set_set, list_set_self _ i o ho,
        list_set_self _ j d hd]

theorem moveFP_inverse (k km : Klondike) (i j n : Nat)
    (h : moveFP k i j n false = some (true, km)) :
    moveFP km i j n true = some (true, k) := by
  unfold moveFP at h ⊢
  rcases ho : k.foundations[i]? with _ | o
  · rw [ho] at h
    rcases hd : k.piles[j]? with _ | d <;> rw [hd] at h <;> simp at h
  · rw [ho] at h
    rcases hd : k.piles[j]? with _ | d
    · rw [hd] at h
      simp at h
    · rw [hd] at h
      rcases hmv : moverMoveCards Foundation.try_peek Foundation.peek Pile.try_poke
          Pile.poke o d n with ⟨r1, o2, d2⟩
      simp only [Bool.false_eq_true, if_false] at h
      rw [hmv] at h
      simp only [Option.some.injEq, Prod.mk.injEq] at h
      obtain ⟨hr1, hkm⟩ := h
      subst hr1
      subst hkm
      have h1 : (k.foundations.set i o2)[i]? = some o2 :=
        list_getElem?_set_self _ i o2 o ho
      have h2 : (k.piles.set j d2)[j]? = some d2 := list_getElem?_set_self _ j d2 d hd
      have hu : moverUndoMoveCards Foundation.undo_peek Pile.undo_poke o2 d2 n
          = (o, d) :=
        mover_inverse _ _ _ _ _ _ foundation_origin_spec pile_dest_spec o d n o2 d2 hmv
      simp only [h1, h2, if_true, hu, List.set_set, list_set_self _ i o ho,
        list_set_self _ j d hd]

theorem moveDF_inverse (k km : Klondike) (j n : Nat)
    (h : moveDF k j n false = some (true, km)) :
    moveDF km j n true = some (true, k) := by
  unfold moveDF at h ⊢
  rcases hd : k.foundations[j]? with _ | d
  · rw [hd] at h
    simp at h
  · rw [hd] at h
    rcases hmv : moverMoveCards Deck.try_peek Deck.peek Foundation.try_poke
        Foundation.poke k.deck d n with ⟨r1, o2, d2⟩
    simp only [Bool.false_eq_true, if_false] at h
    rw [hmv] at h
    simp only [Option.some.injEq, Prod.mk.injEq] at h
    obtain ⟨hr1, hkm⟩ := h
    subst hr1
    subst hkm
    have h2 : (k.foundations.set j d2)[j]? = some d2 := list_getElem?_set_self _ j d2 d hd
    have hu : moverUndoMoveCards Deck.undo_peek Foundation.undo_poke o2 d2 n
        = (k.deck, d) :=
      mover_inverse _ _ _ _ _ _ deck_origin_spec foundation_dest_spec k.deck d n o2 d2 hmv
    simp only [h2, if_true, hu, List.set_set, list_set_self _ j d hd]

theorem moveDP_inverse (k km : Klondike) (j n : Nat)
    (h : moveDP k j n false = some (true, km)) :
    moveDP km j n true = some (true, k) := by
  unfold moveDP at h ⊢
  rcases hd : k.piles[j]? with _ | d
  · rw [hd] at h
    simp at h
  · rw [hd] at h
    rcases hmv : moverMoveCards Deck.try_peek Deck.peek Pile.try_poke
        Pile.poke k.deck d n with ⟨r1, o2, d2⟩
    simp only [Bool.false_eq_true, if_false] at h
    rw [hmv] at h
    simp only [Option.some.injEq, Prod.mk.injEq] at h
    obtain ⟨hr1, hkm⟩ := h
    subst hr1
    subst hkm
    have h2 : (k.piles.set j d2)[j]? = some d2 := list_getElem?_set_self _ j d2 d hd
    have hu : moverUndoMoveCards Deck.undo_peek Pile.undo_poke o2 d2 n
        = (k.deck, d) :=
      mover_inverse _ _ _ _ _ _ deck_origin_spec pile_dest_spec k.deck d n o2 d2 hmv
    simp only [h2, if_true, hu, List.set_set, list_set_self _ j d hd]

theorem foundation_undo_peek_size (f : Foundation) (cs : List Card) :
    (f.undo_peek cs).size = f.size + cs.length := by
  unfold Foundation.undo_peek Foundation.size
  simp only []
  split
  · simp
  · simp
    omega

theorem pile_undo_peek_size (p : Pile) (cs : List Card) (h : cs.length ≤ 1) :
    (p.undo_peek cs).size = p.size + cs.length := by
  rcases cs with _ | ⟨c, rest⟩
  · simp [Pile.undo_peek]
  · rcases rest with _ | ⟨c2, rest2⟩
    · simp [Pile.undo_peek, Pile.size]
    · simp at h

theorem deck_undo_peek_size (d : Deck) (cs : List Card) (h : cs.length ≤ 1) :
    (d.undo_peek cs).size = d.size + cs.length := by
  rcases cs with _ | ⟨c, rest⟩
  · simp [Deck.undo_peek]
  · rcases rest with _ | ⟨c2, rest2⟩
    · simp [Deck.undo_peek, Deck.size]
      omega
    · simp at h

theorem foundation_undo_poke_size (f : Foundation) (n : Nat) :
    (f.undo_poke n).1.size + (f.undo_poke n).2.length = f.size := by
  unfold Foundation.undo_poke Foundation.size
  split
  · rename_i hge
    simp
    omega
  · simp

theorem foundation_undo_poke_len (f : Foundation) (n : Nat) :
    (f.undo_poke n).2.length = n ∨ (f.undo_poke n).2.length = 0 := by
  unfold Foundation.undo_poke
  split
  · rename_i hge
    left
    simp
    omega
  · right
    simp

theorem pile_undo_poke_size (p : Pile) (n : Nat) :
    (p.undo_poke n).1.size + (p.undo_poke n).2.length = p.size := by
  unfold Pile.undo_poke Pile.size
  split
  · split
    · rename_i c heq
      have hne : p.cards ≠ [] := by
        intro hx
        rw [hx] at heq
        simp at heq
      obtain ⟨w, a, hw⟩ := list_concat_of_ne_nil p.cards hne
      rw [hw]
      simp
    · simp
  · simp

theorem pile_undo_poke_len (p : Pile) (n : Nat) :
    (p.undo_poke n).2.length ≤ 1 := by
  unfold Pile.undo_poke
  split
  · split <;> simp
  · simp

theorem moverUndo_count_all {α β : Type} (sa : α → Nat) (sb : β → Nat)
    (undoPeekFn : α → List Card → α) (undoPokeFn : β → Nat → β × List Card)
    (hO : ∀ o cs, sa (undoPeekFn o cs) = sa o + cs.length)
    (hD : ∀ d n, sb (undoPokeFn d n).1 + (undoPokeFn d n).2.length = sb d)
    (o : α) (d : β) (n : Nat) :
    sa (moverUndoMoveCards undoPeekFn undoPokeFn o d n).1
      + sb (moverUndoMoveCards undoPeekFn undoPokeFn o d n).2 = sa o + sb d := by
  unfold moverUndoMoveCards
  have h1 := hD d n
  have h2 := hO o (undoPokeFn d n).2
  simp only []
  omega

theorem moverUndo_count_one {α β : Type} (sa : α → Nat) (sb : β → Nat)
    (undoPeekFn : α → List Card → α) (undoPokeFn : β → Nat → β × List Card)
    (hO : ∀ o cs, cs.length ≤ 1 → sa (undoPeekFn o cs) = sa o + cs.length)
    (hD : ∀ d n, sb (undoPokeFn d n).1 + (undoPokeFn d n).2.length = sb d)
    (o : α) (d : β) (n : Nat) (hlen : (undoPokeFn d n).2.length ≤ 1) :
    sa (moverUndoMoveCards undoPeekFn undoPokeFn o d n).1
      + sb (moverUndoMoveCards undoPeekFn undoPokeFn o d n).2 = sa o + sb d := by
  unfold moverUndoMoveCards
  have h1 := hD d n
  have h2 := hO o (undoPokeFn d n).2 hlen
  simp only []
  omega

theorem deck_take_size (d : Deck) : d.take.size = d.size := by
  unfold Deck.take Deck.size
  simp only []
  by_cases hse : d.stock = [] ∧ ¬ d.waste = []
  · rw [if_pos hse]
    obtain ⟨hs, hw⟩ := hse
    obtain ⟨w, a, hw2⟩ := list_concat_of_ne_nil d.waste.reverse (by simp [hw])
    rw [hs]
    simp only [List.nil_append]
    rw [hw2]
    simp [List.getLast?_concat]
    have hlw : d.waste.length = w.length + 1 := by
      have h3 := congrArg List.length hw2
      simpa using h3
    omega
  · rw [if_neg hse]
    rcases hst : d.stock.getLast? with _ | c
    · simp
    · have hne : d.stock ≠ [] := by
        intro hx
        rw [hx] at hst
        simp at hst
      obtain ⟨w, a, hw⟩ := list_concat_of_ne_nil d.stock hne
      rw [hw]
      simp [List.getLast?_concat]
      have h3 := congrArg List.length hw
      simp at h3
      omega

theorem deck_undo_take_size (d : Deck) : d.undo_take.size = d.size := by
  unfold Deck.undo_take Deck.size
  simp only []
  rcases hwl : d.waste.getLast? with _ | c
  · split
    · simp
      omega
    · simp
  · have hne : d.waste ≠ [] := by
      intro hx
      rw [hx] at hwl
      simp at hwl
    obtain ⟨w, a, hw⟩ := list_concat_of_ne_nil d.waste hne
    split
    · simp [hw]
      omega
    · simp [hw]
      omega

theorem deck_undo_take_take : ∀ d : Deck, d.take.undo_take = d := by
  intro ⟨st, wa, fl⟩
  unfold Deck.take
  simp only []
  by_cases hse : st = [] ∧ ¬ wa = []
  · obtain ⟨hs, hw⟩ := hse
    subst hs
    rcases wa with _ | ⟨b, t⟩
    · simp at hw
    · rw [if_pos ⟨rfl, hw⟩]
      simp only [List.nil_append, List.reverse_cons]
      rw [List.getLast?_concat]
      simp only [List.dropLast_concat]
      unfold Deck.undo_take
      simp [List.getLast?_concat]
  · rw [if_neg hse]
    rcases hst : st.getLast? with _ | c
    · have hs : st = [] := by
        rcases st with _ | ⟨x, xs⟩
        · rfl
        · simp at hst
      have hw : wa = [] := by
        by_contra hx
        exact hse ⟨hs, hx⟩
      subst hs
      subst hw
      unfold Deck.undo_take
      simp [List.getLast?_concat]
    · have hne : st ≠ [] := by
        intro hx
        rw [hx] at hst
        simp at hst
      obtain ⟨w, a, hw⟩ := list_concat_of_ne_nil st hne
      subst hw
      rw [List.getLast?_concat] at hst
      injection hst with hst
      subst hst
      unfold Deck.undo_take
      simp [List.getLast?_concat]

theorem count_setFF (k : Klondike) (i j : Nat) (o d o2 d2 : Foundation) (hij : i ≠ j)
    (ho : k.foundations[i]? = some o) (hd : k.foundations[j]? = some d)
    (hsz : o2.size + d2.size = o.size + d.size) :
    Klondike.cardCount { k with foundations := (k.foundations.set i o2).set j d2 }
      = k.cardCount := by
  unfold Klondike.cardCount
  simp only []
  have h1 := list_sum_map_set Foundation.size (k.foundations.set i o2) j d2 d
    (by rw [List.getElem?_set_ne hij]; exact hd)
  have h2 := list_sum_map_set Foundation.size k.foundations i o2 o ho
  omega

theorem count_setPP (k : Klondike) (i j : Nat) (o d o2 d2 : Pile) (hij : i ≠ j)
    (ho : k.piles[i]? = some o) (hd : k.piles[j]? = some d)
    (hsz : o2.size + d2.size = o.size + d.size) :
    Klondike.cardCount { k with piles := (k.piles.set i o2).set j d2 }
      = k.cardCount := by
  unfold Klondike.cardCount
  simp only []
  have h1 := list_sum_map_set Pile.size (k.piles.set i o2) j d2 d
    (by rw [List.getElem?_set_ne hij]; exact hd)
  have h2 := list_sum_map_set Pile.size k.piles i o2 o ho
  omega

theorem count_setPF (k : Klondike) (i j : Nat) (o o2 : Pile) (d d2 : Foundation)
    (ho : k.piles[i]? = some o) (hd : k.foundations[j]? = some d)
    (hsz : o2.size + d2.size = o.size + d.size) :
    Klondike.cardCount { k with
      piles := k.piles.set i o2
      foundations := k.foundations.set j d2 } = k.cardCount := by
  unfold Klondike.cardCount
  simp only []
  have h1 := list_sum_map_set Pile.size k.piles i o2 o ho
  have h2 := list_sum_map_set Foundation.size k.foundations j d2 d hd
  omega

theorem count_setFP (k : Klondike) (i j : Nat) (o o2 : Foundation) (d d2 : Pile)
    (ho : k.foundations[i]? = some o) (hd : k.piles[j]? = some d)
    (hsz : o2.size + d2.size = o.size + d.size) :
    Klondike.cardCount { k with
      foundations := k.foundations.set i o2
      piles := k.piles.set j d2 } = k.cardCount := by
  unfold Klondike.cardCount
  simp only []
  have h1 := list_sum_map_set Foundation.size k.foundations i o2 o ho
  have h2 := list_sum_map_set Pile.size k.piles j d2 d hd
  omega

theorem count_setDF (k : Klondike) (j : Nat) (o2 : Deck) (d d2 : Foundation)
    (hd : k.foundations[j]? = some d)
    (hsz : o2.size + d2.size = k.deck.size + d.size) :
    Klondike.cardCount { k with
      deck := o2
      foundations := k.foundations.set j d2 } = k.cardCount := by
  unfold Klondike.cardCount
  simp only []
  have h2 := list_sum_map_set Foundation.size k.foundations j d2 d hd
  omega

theorem count_setDP (k : Klondike) (j : Nat) (o2 : Deck) (d d2 : Pile)
    (hd : k.piles[j]? = some d)
    (hsz : o2.size + d2.size = k.deck.size + d.size) :
    Klondike.cardCount { k with
      deck := o2
      piles := k.piles.set j d2 } = k.cardCount := by
  unfold Klondike.cardCount
  simp only []
  have h2 := list_sum_map_set Pile.size k.piles j d2 d hd
  omega

theorem pile_try_peek_one (p : Pile) (n : Nat) (cs : List Card)
    (h : p.try_peek n = some cs) : n = 1 := by
  unfold Pile.try_peek at h
  split at h
  · rename_i hc
    exact hc.1
  · simp at h

theorem deck_try_peek_one (d : Deck) (n : Nat) (cs : List Card)
    (h : d.try_peek n = some cs) : n = 1 := by
  unfold Deck.try_peek at h
  split at h
  · rename_i hc
    exact hc.1
  · simp at h

theorem mover_true_peek {α β : Type}
    (tryPeekFn : α → Nat → Option (List Card)) (peekFn : α → Nat → α × List Card)
    (tryPokeFn : β → List Card → Bool) (pokeFn : β → List Card → β)
    (origin : α) (destination : β) (number : Nat) (o2 : α) (d2 : β)
    (h : moverMoveCards tryPeekFn peekFn tryPokeFn pokeFn origin destination number
      = (true, o2, d2)) : ∃ cs, tryPeekFn origin number = some cs := by
  unfold moverMoveCards at h
  split at h
  case h_2 => simp at h
  case h_1 cs hcs => exact ⟨cs, hcs⟩

theorem moveFF_fwd (k km : Klondike) (i j n : Nat) (r : Bool)
    (h : moveFF k i j n false = some (r, km)) :
    km.cardCount = k.cardCount ∧ km.history = k.history ∧ (r = false → km = k) := by
  unfold moveFF at h
  by_cases hcond : i = j ∨ k.foundations.length < i ∨ k.foundations.length < j
  · rw [if_pos hcond] at h
    simp only [Option.some.injEq, Prod.mk.injEq] at h
    obtain ⟨hr, hk⟩ := h
    subst hk
    exact ⟨rfl, rfl, fun _ => rfl⟩
  · rw [if_neg hcond] at h
    have hij : i ≠ j := fun hx => hcond (Or.inl hx)
    rcases ho : k.foundations[i]? with _ | o
    · rw [ho] at h
      rcases hd : k.foundations[j]? with _ | d <;> rw [hd] at h <;> simp at h
    · rw [ho] at h
      rcases hd : k.foundations[j]? with _ | d
      · rw [hd] at h
        simp at h
      · rw [hd] at h
        rcases hmv : moverMoveCards Foundation.try_peek Foundation.peek Foundation.try_poke
            Foundation.poke o d n with ⟨r1, o2, d2⟩
        simp only [Bool.false_eq_true, if_false] at h
        rw [hmv] at h
        simp only [Option.some.injEq, Prod.mk.injEq] at h
        obtain ⟨hr1, hkm⟩ := h
        subst hkm
        refine ⟨?_, rfl, ?_⟩
        · exact count_setFF k i j o d o2 d2 hij ho hd
            (mover_count Foundation.size Foundation.size _ _ _ _
              foundation_origin_count foundation_dest_count o d n r1 o2 d2 hmv)
        · intro hr
          rw [hr] at hr1
          rw [hr1] at hmv
          obtain ⟨ho2, hd2⟩ := mover_false _ _ _ _ o d n o2 d2 hmv
          rw [ho2, hd2]
          rw [list_set_self _ j d (by rw [List.getElem?_set_ne hij]; exact hd),
            list_set_self _ i o ho]

theorem moveFF_undo (k km : Klondike) (i j n : Nat) (r : Bool)
    (h : moveFF k i j n true = some (r, km)) :
    km.cardCount = k.cardCount ∧ km.history = k.history := by
  unfold moveFF at h
  by_cases hcond : i = j ∨ k.foundations.length < i ∨ k.foundations.length < j
  · rw [if_pos hcond] at h
    simp only [Option.some.injEq, Prod.mk.injEq] at h
    obtain ⟨hr, hk⟩ := h
    subst hk
    exact ⟨rfl, rfl⟩
  · rw [if_neg hcond] at h
    have hij : i ≠ j := fun hx => hcond (Or.inl hx)
    rcases ho : k.foundations[i]? with _ | o
    · rw [ho] at h
      rcases hd : k.foundations[j]? with _ | d <;> rw [hd] at h <;> simp at h
    · rw [ho] at h
      rcases hd : k.foundations[j]? with _ | d
      · rw [hd] at h
        simp at h
      · rw [hd] at h
        simp only [if_true] at h
        rcases hmu : moverUndoMoveCards Foundation.undo_peek Foundation.undo_poke o d n
          with ⟨o2, d2⟩
        rw [hmu] at h
        simp only [Option.some.injEq, Prod.mk.injEq] at h
        obtain ⟨hr1, hkm⟩ := h
        subst hkm
        refine ⟨?_, rfl⟩
        have hsz := moverUndo_count_all Foundation.size Foundation.size
          Foundation.undo_peek Foundation.undo_poke foundation_undo_peek_size
          foundation_undo_poke_size o d n
        rw [hmu] at hsz
        exact count_setFF k i j o d o2 d2 hij ho hd hsz

theorem movePP_fwd (k km : Klondike) (i j n : Nat) (r : Bool)
    (h : movePP k i j n false = some (r, km)) :
    km.cardCount = k.cardCount ∧ km.history = k.history ∧ (r = false → km = k)
      ∧ (r = true → n = 1) := by
  unfold movePP at h
  by_cases hcond : i = j ∨ k.piles.length < i ∨ k.piles.length < j
  · rw [if_pos hcond] at h
    simp only [Option.some.injEq, Prod.mk.injEq] at h
    obtain ⟨hr, hk⟩ := h
    subst hk
    exact ⟨rfl, rfl, fun _ => rfl, fun hx => by rw [← hr] at hx; simp at hx⟩
  · rw [if_neg hcond] at h
    have hij : i ≠ j := fun hx => hcond (Or.inl hx)
    rcases ho : k.piles[i]? with _ | o
    · rw [ho] at h
      rcases hd : k.piles[j]? with _ | d <;> rw [hd] at h <;> simp at h
    · rw [ho] at h
      rcases hd : k.piles[j]? with _ | d
      · rw [hd] at h
        simp at h
      · rw [hd] at h
        rcases hmv : moverMoveCards Pile.try_peek Pile.peek Pile.try_poke
            Pile.poke o d n with ⟨r1, o2, d2⟩
        simp only [Bool.false_eq_true, if_false] at h
        rw [hmv] at h
        simp only [Option.some.injEq, Prod.mk.injEq] at h
        obtain ⟨hr1, hkm⟩ := h
        subst hkm
        refine ⟨?_, rfl, ?_, ?_⟩
        · exact count_setPP k i j o d o2 d2 hij ho hd
            (mover_count Pile.size Pile.size _ _ _ _
              pile_origin_count pile_dest_count o d n r1 o2 d2 hmv)
        · intro hr
          rw [hr] at hr1
          rw [hr1] at hmv
          obtain ⟨ho2, hd2⟩ := mover_false _ _ _ _ o d n o2 d2 hmv
          rw [ho2, hd2]
          rw [list_set_self _ j d (by rw [List.getElem?_set_ne hij]; exact hd),
            list_set_self _ i o ho]
        · intro hr
          rw [hr] at hr1
          rw [hr1] at hmv
          obtain ⟨cs, hcs⟩ := mover_true_peek _ _ _ _ o d n o2 d2 hmv
          exact pile_try_peek_one o n cs hcs

theorem movePP_undo (k km : Klondike) (i j n : Nat) (r : Bool)
    (h : movePP k i j n true = some (r, km)) :
    km.cardCount = k.cardCount ∧ km.history = k.history := by
  unfold movePP at h
  by_cases hcond : i = j ∨ k.piles.length < i ∨ k.piles.length < j
  · rw [if_pos hcond] at h
    simp only [Option.some.injEq, Prod.mk.injEq] at h
    obtain ⟨hr, hk⟩ := h
    subst hk
    exact ⟨rfl, rfl⟩
  · rw [if_neg hcond] at h
    have hij : i ≠ j := fun hx => hcond (Or.inl hx)
    rcases ho : k.piles[i]? with _ | o
    · rw [ho] at h
      rcases hd : k.piles[j]? with _ | d <;> rw [hd] at h <;> simp at h
    · rw [ho] at h
      rcases hd : k.piles[j]? with _ | d
      · rw [hd] at h
        simp at h
      · rw [hd] at h
        simp only [if_true] at h
        rcases hmu : moverUndoMoveCards Pile.undo_peek Pile.undo_poke o d n
          with ⟨o2, d2⟩
        rw [hmu] at h
        simp only [Option.some.injEq, Prod.mk.injEq] at h
        obtain ⟨hr1, hkm⟩ := h
        subst hkm
        refine ⟨?_, rfl⟩
        have hsz := moverUndo_count_one Pile.size Pile.size
          Pile.undo_peek Pile.undo_poke pile_undo_peek_size
          pile_undo_poke_size o d n (pile_undo_poke_len d n)
        rw [hmu] at hsz
        exact count_setPP k i j o d o2 d2 hij ho hd hsz

theorem movePF_fwd (k km : Klondike) (i j n : Nat) (r : Bool)
    (h : movePF k i j n false = some (r, km)) :
    km.cardCount = k.cardCount ∧ km.history = k.history ∧ (r = false → km = k)
      ∧ (r = true → n = 1) := by
  unfold movePF at h
  rcases ho : k.piles[i]? with _ | o
  · rw [ho] at h
    rcases hd : k.foundations[j]? with _ | d <;> rw [hd] at h <;> simp at h
  · rw [ho] at h
    rcases hd : k.foundations[j]? with _ | d
    · rw [hd] at h
      simp at h
    · rw [hd] at h
      rcases hmv : moverMoveCards Pile.try_peek Pile.peek Foundation.try_poke
          Foundation.poke o d n with ⟨r1, o2, d2⟩
      simp only [Bool.false_eq_true, if_false] at h
      rw [hmv] at h
      simp only [Option.some.injEq, Prod.mk.injEq] at h
      obtain ⟨hr1, hkm⟩ := h
      subst hkm
      refine ⟨?_, rfl, ?_, ?_⟩
      · exact count_setPF k i j o o2 d d2 ho hd
          (mover_count Pile.size Foundation.size _ _ _ _
            pile_origin_count foundation_dest_count o d n r1 o2 d2 hmv)
      · intro hr
        rw [hr] at hr1
        rw [hr1] at hmv
        obtain ⟨ho2, hd2⟩ := mover_false _ _ _ _ o d n o2 d2 hmv
        rw [ho2, hd2, list_set_self _ i o ho, list_set_self _ j d hd]
      · intro hr
        rw [hr] at hr1
        rw [hr1] at hmv
        obtain ⟨cs, hcs⟩ := mover_true_peek _ _ _ _ o d n o2 d2 hmv
        exact pile_try_peek_one o n cs hcs

theorem movePF_undo (k km : Klondike) (i j n : Nat) (r : Bool) (hn : n = 1)
    (h : movePF k i j n true = some (r, km)) :
    km.cardCount = k.cardCount ∧ km.history = k.history := by
  unfold movePF at h
  rcases ho : k.piles[i]? with _ | o
  · rw [ho] at h
    rcases hd : k.foundations[j]? with _ | d <;> rw [hd] at h <;> simp at h
  · rw [ho] at h
    rcases hd : k.foundations[j]? with _ | d
    · rw [hd] at h
      simp at h
    · rw [hd] at h
      simp only [if_true] at h
      rcases hmu : moverUndoMoveCards Pile.undo_peek Foundation.undo_poke o d n
        with ⟨o2, d2⟩
      rw [hmu] at h
      simp only [Option.some.injEq, Prod.mk.injEq] at h
      obtain ⟨hr1, hkm⟩ := h
      subst hkm
      refine ⟨?_, rfl⟩
      have hlen : (Foundation.undo_poke d n).2.length ≤ 1 := by
        rcases foundation_undo_poke_len d n with hx | hx <;> omega
      have hsz := moverUndo_count_one Pile.size Foundation.size
        Pile.undo_peek Foundation.undo_poke pile_undo_peek_size
        foundation_undo_poke_size o d n hlen
      rw [hmu] at hsz
      exact count_setPF k i j o o2 d d2 ho hd hsz

theorem moveFP_fwd (k km : Klondike) (i j n : Nat) (r : Bool)
    (h : moveFP k i j n false = some (r, km)) :
    km.cardCount = k.cardCount ∧ km.history = k.history ∧ (r = false → km = k) := by
  unfold moveFP at h
  rcases ho : k.foundations[i]? with _ | o
  · rw [ho] at h
    rcases hd : k.piles[j]? with _ | d <;> rw [hd] at h <;> simp at h
  · rw [ho] at h
    rcases hd : k.piles[j]? with _ | d
    · rw [hd] at h
      simp at h
    · rw [hd] at h
      rcases hmv : moverMoveCards Foundation.try_peek Foundation.peek Pile.try_poke
          Pile.poke o d n with ⟨r1, o2, d2⟩
      simp only [Bool.false_eq_true, if_false] at h
      rw [hmv] at h
      simp only [Option.some.injEq, Prod.mk.injEq] at h
      obtain ⟨hr1, hkm⟩ := h
      subst hkm
      refine ⟨?_, rfl, ?_⟩
      · exact count_setFP k i j o o2 d d2 ho hd
          (mover_count Foundation.size Pile.size _ _ _ _
            foundation_origin_count pile_dest_count o d n r1 o2 d2 hmv)
      · intro hr
        rw [hr] at hr1
        rw [hr1] at hmv
        obtain ⟨ho2, hd2⟩ := mover_false _ _ _ _ o d n o2 d2 hmv
        rw [ho2, hd2, list_set_self _ i o ho, list_set_self _ j d hd]

theorem moveFP_undo (k km : Klondike) (i j n : Nat) (r : Bool)
    (h : moveFP k i j n true = some (r, km)) :
    km.cardCount = k.cardCount ∧ km.history = k.history := by
  unfold moveFP at h
  rcases ho : k.foundations[i]? with _ | o
  · rw [ho] at h
    rcases hd : k.piles[j]? with _ | d <;> rw [hd] at h <;> simp at h
  · rw [ho] at h
    rcases hd : k.piles[j]? with _ | d
    · rw [hd] at h
      simp at h
    · rw [hd] at h
      simp only [if_true] at h
      rcases hmu : moverUndoMoveCards Foundation.undo_peek Pile.undo_poke o d n
        with ⟨o2, d2⟩
      rw [hmu] at h
      simp only [Option.some.injEq, Prod.mk.injEq] at h
      obtain ⟨hr1, hkm⟩ := h
      subst hkm
      refine ⟨?_, rfl⟩
      have hsz := moverUndo_count_all Foundation.size Pile.size
        Foundation.undo_peek Pile.undo_poke foundation_undo_peek_size
        pile_undo_poke_size o d n
      rw [hmu] at hsz
      exact count_setFP k i j o o2 d d2 ho hd hsz

theorem moveDF_fwd (k km : Klondike) (j n : Nat) (r : Bool)
    (h : moveDF k j n false = some (r, km)) :
    km.cardCount = k.cardCount ∧ km.history = k.history ∧ (r = false → km = k)
      ∧ (r = true → n = 1) := by
  unfold moveDF at h
  rcases hd : k.foundations[j]? with _ | d
  · rw [hd] at h
    simp at h
  · rw [hd] at h
    rcases hmv : moverMoveCards Deck.try_peek Deck.peek Foundation.try_poke
        Foundation.poke k.deck d n with ⟨r1, o2, d2⟩
    simp only [Bool.false_eq_true, if_false] at h
    rw [hmv] at h
    simp only [Option.some.injEq, Prod.mk.injEq] at h
    obtain ⟨hr1, hkm⟩ := h
    subst hkm
    refine ⟨?_, rfl, ?_, ?_⟩
    · exact count_setDF k j o2 d d2 hd
        (mover_count Deck.size Foundation.size _ _ _ _
          deck_origin_count foundation_dest_count k.deck d n r1 o2 d2 hmv)
    · intro hr
      rw [hr] at hr1
      rw [hr1] at hmv
      obtain ⟨ho2, hd2⟩ := mover_false _ _ _ _ k.deck d n o2 d2 hmv
      rw [ho2, hd2, list_set_self _ j d hd]
    · intro hr
      rw [hr] at hr1
      rw [hr1] at hmv
      obtain ⟨cs, hcs⟩ := mover_true_peek _ _ _ _ k.deck d n o2 d2 hmv
      exact deck_try_peek_one k.deck n cs hcs

theorem moveDF_undo (k km : Klondike) (j n : Nat) (r : Bool) (hn : n = 1)
    (h : moveDF k j n true = some (r, km)) :
    km.cardCount = k.cardCount ∧ km.history = k.history := by
  unfold moveDF at h
  rcases hd : k.foundations[j]? with _ | d
  · rw [hd] at h
    simp at h
  · rw [hd] at h
    simp only [if_true] at h
    rcases hmu : moverUndoMoveCards Deck.undo_peek Foundation.undo_poke k.deck d n
      with ⟨o2, d2⟩
    rw [hmu] at h
    simp only [Option.some.injEq, Prod.mk.injEq] at h
    obtain ⟨hr1, hkm⟩ := h
    subst hkm
    refine ⟨?_, rfl⟩
    have hlen : (Foundation.undo_poke d n).2.length ≤ 1 := by
      rcases foundation_undo_poke_len d n with hx | hx <;> omega
    have hsz := moverUndo_count_one Deck.size Foundation.size
      Deck.undo_peek Foundation.undo_poke deck_undo_peek_size
      foundation_undo_poke_size k.deck d n hlen
    rw [hmu] at hsz
    exact count_setDF k j o2 d d2 hd hsz

theorem moveDP_fwd (k km : Klondike) (j n : Nat) (r : Bool)
    (h : moveDP k j n false = some (r, km)) :
    km.cardCount = k.cardCount ∧ km.history = k.history ∧ (r = false → km = k)
      ∧ (r = true → n = 1) := by
  unfold moveDP at h
  rcases hd : k.piles[j]? with _ | d
  · rw [hd] at h
    simp at h
  · rw [hd] at h
    rcases hmv : moverMoveCards Deck.try_peek Deck.peek Pile.try_poke
        Pile.poke k.deck d n with ⟨r1, o2, d2⟩
    simp only [Bool.false_eq_true, if_false] at h
    rw [hmv] at h
    simp only [Option.some.injEq, Prod.mk.injEq] at h
    obtain ⟨hr1, hkm⟩ := h
    subst hkm
    refine ⟨?_, rfl, ?_, ?_⟩
    · exact count_setDP k j o2 d d2 hd
        (mover_count Deck.size Pile.size _ _ _ _
          deck_origin_count pile_dest_count k.deck d n r1 o2 d2 hmv)
    · intro hr
      rw [hr] at hr1
      rw [hr1] at hmv
      obtain ⟨ho2, hd2⟩ := mover_false _ _ _ _ k.deck d n o2 d2 hmv
      rw [ho2, hd2, list_set_self _ j d hd]
    · intro hr
      rw [hr] at hr1
      rw [hr1] at hmv
      obtain ⟨cs, hcs⟩ := mover_true_peek _ _ _ _ k.deck d n o2 d2 hmv
      exact deck_try_peek_one k.deck n cs hcs

theorem moveDP_undo (k km : Klondike) (j n : Nat) (r : Bool)
    (h : moveDP k j n true = some (r, km)) :
    km.cardCount = k.cardCount ∧ km.history = k.history := by
  unfold moveDP at h
  rcases hd : k.piles[j]? with _ | d
  · rw [hd] at h
    simp at h
  · rw [hd] at h
    simp only [if_true] at h
    rcases hmu : moverUndoMoveCards Deck.undo_peek Pile.undo_poke k.deck d n
      with ⟨o2, d2⟩
    rw [hmu] at h
    simp only [Option.some.injEq, Prod.mk.injEq] at h
    obtain ⟨hr1, hkm⟩ := h
    subst hkm
    refine ⟨?_, rfl⟩
    have hsz := moverUndo_count_one Deck.size Pile.size
      Deck.undo_peek Pile.undo_poke deck_undo_peek_size
      pile_undo_poke_size k.deck d n (pile_undo_poke_len d n)
    rw [hmu] at hsz
    exact count_setDP k j o2 d d2 hd hsz

theorem do_move_inverse (k km : Klondike) (o d : CardHolder) (n : Nat)
    (h : k.do_move_cards o d n false = some (true, km)) :
    km.do_move_cards o d n true = some (true, k) := by
  cases d with
  | DECK => simp [Klondike.do_move_cards] at h
  | PILE dj =>
    cases o with
    | DECK => exact moveDP_inverse k km dj n h
    | PILE oi => exact movePP_inverse k km oi dj n h
    | FOUNDATION oi => exact moveFP_inverse k km oi dj n h
  | FOUNDATION dj =>
    cases o with
    | DECK => exact moveDF_inverse k km dj n h
    | PILE oi => exact movePF_inverse k km oi dj n h
    | FOUNDATION oi => exact moveFF_inverse k km oi dj n h

theorem do_move_fwd_all (k km : Klondike) (o d : CardHolder) (n : Nat) (r : Bool)
    (h : k.do_move_cards o d n false = some (r, km)) :
    km.cardCount = k.cardCount ∧ km.history = k.history ∧ (r = false → km = k)
      ∧ (r = true → entryOK (KlondikeAction.MOVE o d n)) := by
  cases d with
  | DECK =>
    simp only [Klondike.do_move_cards, Option.some.injEq, Prod.mk.injEq] at h
    obtain ⟨hr, hk⟩ := h
    subst hk
    exact ⟨rfl, rfl, fun _ => rfl, fun hx => by rw [← hr] at hx; simp at hx⟩
  | PILE dj =>
    cases o with
    | DECK =>
      obtain ⟨h1, h2, h3, h4⟩ := moveDP_fwd k km dj n r h
      exact ⟨h1, h2, h3, fun hr => h4 hr⟩
    | PILE oi =>
      obtain ⟨h1, h2, h3, h4⟩ := movePP_fwd k km oi dj n r h
      exact ⟨h1, h2, h3, fun hr => h4 hr⟩
    | FOUNDATION oi =>
      obtain ⟨h1, h2, h3⟩ := moveFP_fwd k km oi dj n r h
      exact ⟨h1, h2, h3, fun _ => trivial⟩
  | FOUNDATION dj =>
    cases o with
    | DECK =>
      obtain ⟨h1, h2, h3, h4⟩ := moveDF_fwd k km dj n r h
      exact ⟨h1, h2, h3, fun hr => h4 hr⟩
    | PILE oi =>
      obtain ⟨h1, h2, h3, h4⟩ := movePF_fwd k km oi dj n r h
      exact ⟨h1, h2, h3, fun hr => h4 hr⟩
    | FOUNDATION oi =>
      obtain ⟨h1, h2, h3⟩ := moveFF_fwd k km oi dj n r h
      exact ⟨h1, h2, h3, fun _ => trivial⟩

theorem do_move_undo_all (k km : Klondike) (o d : CardHolder) (n : Nat) (r : Bool)
    (hok : entryOK (KlondikeAction.MOVE o d n))
    (h : k.do_move_cards o d n true = some (r, km)) :
    km.cardCount = k.cardCount ∧ km.history = k.history := by
  cases d with
  | DECK =>
    simp only [Klondike.do_move_cards, Option.some.injEq, Prod.mk.injEq] at h
    obtain ⟨hr, hk⟩ := h
    subst hk
    exact ⟨rfl, rfl⟩
  | PILE dj =>
    cases o with
    | DECK => exact moveDP_undo k km dj n r h
    | PILE oi => exact movePP_undo k km oi dj n r h
    | FOUNDATION oi => exact moveFP_undo k km oi dj n r h
  | FOUNDATION dj =>
    cases o with
    | DECK => exact moveDF_undo k km dj n r hok h
    | PILE oi => exact movePF_undo k km oi dj n r hok h
    | FOUNDATION oi => exact moveFF_undo k km oi dj n r h

theorem undo_concat_move (k1 : Klondike) (o d : CardHolder) (n : Nat) :
    Klondike.undo { k1 with history := k1.history ++ [KlondikeAction.MOVE o d n] } =
      match k1.do_move_cards o d n true with
      | some r => some r.2
      | none => none := by
  unfold Klondike.undo
  simp only [List.getLast?_concat, List.dropLast_concat]

theorem undo_concat_take (k1 : Klondike) :
    Klondike.undo { k1 with history := k1.history ++ [KlondikeAction.TAKE] } =
      some { k1 with deck := k1.deck.undo_take } := by
  unfold Klondike.undo
  simp only [List.getLast?_concat, List.dropLast_concat]

theorem move_cards_true (k km : Klondike) (o d : CardHolder) (n : Nat)
    (h : k.move_cards o d n = some (true, km)) :
    ∃ k1, k.do_move_cards o d n false = some (true, k1) ∧
      km = { k1 with history := k1.history ++ [KlondikeAction.MOVE o d n] } := by
  unfold Klondike.move_cards at h
  rcases hdo : k.do_move_cards o d n false with _ | ⟨r, k1⟩
  · rw [hdo] at h
    simp at h
  · rw [hdo] at h
    cases r
    · simp at h
    · simp only [Option.some.injEq, Prod.mk.injEq, true_and] at h
      exact ⟨k1, rfl, h.symm⟩

theorem move_cards_false (k km : Klondike) (o d : CardHolder) (n : Nat)
    (h : k.move_cards o d n = some (false, km)) : km = k := by
  unfold Klondike.move_cards at h
  rcases hdo : k.do_move_cards o d n false with _ | ⟨r, k1⟩
  · rw [hdo] at h
    simp at h
  · rw [hdo] at h
    cases r
    · simp only [Option.some.injEq, Prod.mk.injEq, true_and] at h
      rw [← h]
      exact (do_move_fwd_all k k1 o d n false hdo).2.2.1 rfl
    · simp at h

theorem move_undo_restores (k km : Klondike) (o d : CardHolder) (n : Nat)
    (h : k.move_cards o d n = some (true, km)) : km.undo = some k := by
  obtain ⟨k1, hdo, hkm⟩ := move_cards_true k km o d n h
  have hhist : k1.history = k.history := (do_move_fwd_all k k1 o d n true hdo).2.1
  subst hkm
  rw [undo_concat_move, do_move_inverse k k1 o d n hdo]

theorem histOK_concat (h : List KlondikeAction) (e : KlondikeAction)
    (hh : HistOK h) (he : entryOK e) : HistOK (h ++ [e]) := by
  intro x hx
  rcases List.mem_append.mp hx with hx1 | hx1
  · exact hh x hx1
  · rw [List.mem_singleton.mp hx1]
    exact he

theorem histOK_dropLast (h : List KlondikeAction) (hh : HistOK h) :
    HistOK h.dropLast := by
  intro x hx
  exact hh x ((List.dropLast_sublist h).mem hx)

theorem cardCount_history (k : Klondike) (hist : List KlondikeAction) :
    Klondike.cardCount { k with history := hist } = k.cardCount := rfl

theorem move_cards_pres (k km : Klondike) (o d : CardHolder) (n : Nat) (r : Bool)
    (h : k.move_cards o d n = some (r, km)) (hok : HistOK k.history) :
    km.cardCount = k.cardCount ∧ HistOK km.history := by
  cases r
  · rw [move_cards_false k km o d n h]
    exact ⟨rfl, hok⟩
  · obtain ⟨k1, hdo, hkm⟩ := move_cards_true k km o d n h
    obtain ⟨h1, h2, _, h4⟩ := do_move_fwd_all k k1 o d n true hdo
    subst hkm
    constructor
    · exact (cardCount_history k1 _).trans h1
    · show HistOK (k1.history ++ [KlondikeAction.MOVE o d n])
      rw [h2]
      exact histOK_concat _ _ hok (h4 rfl)

theorem take_pres (k : Klondike) (hok : HistOK k.history) :
    k.take.cardCount = k.cardCount ∧ HistOK k.take.history := by
  constructor
  · unfold Klondike.take Klondike.cardCount
    simp only []
    rw [deck_take_size]
  · show HistOK (k.history ++ [KlondikeAction.TAKE])
    exact histOK_concat _ _ hok trivial

theorem undo_pres (k km : Klondike) (h : k.undo = some km) (hok : HistOK k.history) :
    km.cardCount = k.cardCount ∧ HistOK km.history := by
  unfold Klondike.undo at h
  rcases hl : k.history.getLast? with _ | e
  · rw [hl] at h
    simp only [Option.some.injEq] at h
    rw [← h]
    exact ⟨rfl, hok⟩
  · rw [hl] at h
    have hmem : entryOK e := hok e (list_mem_of_getLast? _ e hl)
    cases e with
    | TAKE =>
      simp only [] at h
      simp only [Option.some.injEq] at h
      rw [← h]
      constructor
      · unfold Klondike.cardCount
        simp only []
        rw [deck_undo_take_size]
      · exact histOK_dropLast _ hok
    | MOVE o d n =>
      simp only [] at h
      rcases hdo : Klondike.do_move_cards { k with history := k.history.dropLast }
          o d n true with _ | ⟨r, k2⟩
      · rw [hdo] at h
        simp at h
      · rw [hdo] at h
        simp only [Option.some.injEq] at h
        rw [← h]
        obtain ⟨h1, h2⟩ :=
          do_move_undo_all { k with history := k.history.dropLast } k2 o d n r hmem hdo
        constructor
        · exact h1.trans (cardCount_history k _)
        · rw [h2]
          exact histOK_dropLast _ hok

theorem to_pile_aux_pres (o : CardHolder) : ∀ (idxs : List Nat) (k km : Klondike) (r : Bool),
    Klondike.to_pile_aux o k idxs = some (r, km) → HistOK k.history →
    km.cardCount = k.cardCount ∧ HistOK km.history := by
  intro idxs
  induction idxs with
  | nil =>
    intro k km r h hok
    unfold Klondike.to_pile_aux at h
    simp only [Option.some.injEq, Prod.mk.injEq] at h
    rw [← h.2]
    exact ⟨rfl, hok⟩
  | cons i rest ih =>
    intro k km r h hok
    unfold Klondike.to_pile_aux at h
    rcases hmv : k.move_cards o (CardHolder.PILE i) 1 with _ | ⟨r1, k1⟩
    · rw [hmv] at h
      simp at h
    · rw [hmv] at h
      have hp := move_cards_pres k k1 o (CardHolder.PILE i) 1 r1 hmv hok
      cases r1
      · simp only [] at h
        obtain ⟨hc, hh⟩ := ih k1 km r h hp.2
        exact ⟨hc.trans hp.1, hh⟩
      · simp only [Option.some.injEq, Prod.mk.injEq] at h
        rw [← h.2]
        exact hp

theorem applyOp_pres (k km : Klondike) (op : Op) (h : applyOp k op = some km)
    (hok : HistOK k.history) : km.cardCount = k.cardCount ∧ HistOK km.history := by
  cases op with
  | move o d n =>
    unfold applyOp at h
    simp only [] at h
    rcases hmv : k.move_cards o d n with _ | ⟨r, k1⟩
    · rw [hmv] at h
      simp at h
    · rw [hmv] at h
      injection h with h
      rw [← h]
      exact move_cards_pres k k1 o d n r hmv hok
  | take =>
    unfold applyOp at h
    injection h with h
    rw [← h]
    exact take_pres k hok
  | toPile o =>
    unfold applyOp at h
    unfold Klondike.to_pile at h
    simp only [] at h
    rcases hmv : Klondike.to_pile_aux o k (List.range k.piles.length) with _ | ⟨r, k1⟩
    · rw [hmv] at h
      simp at h
    · rw [hmv] at h
      injection h with h
      rw [← h]
      exact to_pile_aux_pres o (List.range k.piles.length) k k1 r hmv hok
  | undo =>
    unfold applyOp at h
    exact undo_pres k km h hok

theorem applyOps_pres : ∀ (ops : List Op) (k km : Klondike),
    applyOps k ops = some km → HistOK k.history →
    km.cardCount = k.cardCount ∧ HistOK km.history := by
  intro ops
  induction ops with
  | nil =>
    intro k km h hok
    unfold applyOps at h
    injection h with h
    rw [← h]
    exact ⟨rfl, hok⟩
  | cons op rest ih =>
    intro k km h hok
    unfold applyOps at h
    rcases hop : applyOp k op with _ | k1
    · rw [hop] at h
      simp at h
    · rw [hop] at h
      have hp := applyOp_pres k k1 op hop hok
      obtain ⟨hc, hh⟩ := ih k1 km h hp.2
      exact ⟨hc.trans hp.1, hh⟩

theorem foundation_new_size (cs : List Card) (f : Foundation)
    (h : Foundation.new cs = some f) : f.size = cs.length := by
  unfold Foundation.new at h
  split at h
  · simp at h
  · rename_i hne
    simp only [Option.some.injEq] at h
    rw [← h]
    unfold Foundation.size
    simp

theorem dealCascades_count : ∀ (sizes : List Nat) (cards : List Card)
    (fs : List Foundation) (rem : List Card),
    dealCascades sizes cards = some (fs, rem) →
    (fs.map Foundation.size).sum + rem.length = cards.length := by
  intro sizes
  induction sizes with
  | nil =>
    intro cards fs rem h
    unfold dealCascades at h
    simp only [Option.some.injEq, Prod.mk.injEq] at h
    rw [← h.1, ← h.2]
    simp
  | cons i rest ih =>
    intro cards fs rem h
    unfold dealCascades at h
    split at h
    · rename_i hle
      rcases hf : Foundation.new (cards.take i) with _ | f
      · rw [hf] at h
        simp at h
      · rw [hf] at h
        rcases hdc : dealCascades rest (cards.drop i) with _ | ⟨fs2, rem2⟩
        · rw [hdc] at h
          simp at h
        · rw [hdc] at h
          simp only [Option.some.injEq, Prod.mk.injEq] at h
          obtain ⟨hfs, hrem⟩ := h
          rw [← hfs, ← hrem]
          have h1 := foundation_new_size _ _ hf
          have h2 := ih (cards.drop i) fs2 rem2 hdc
          have h3 : (cards.take i).length = i := by
            simp
            omega
          have h4 : (cards.drop i).length = cards.length - i := by simp
          simp only [List.map_cons, List.sum_cons]
          omega
    · simp at h

theorem new_with_props (cards : List Card) (k0 : Klondike)
    (h : Klondike.new_with cards = some k0) :
    k0.cardCount = cards.length ∧ k0.history = [] := by
  unfold Klondike.new_with at h
  rcases hdc : dealCascades [1, 2, 3, 4, 5, 6, 7] cards with _ | ⟨fs, rem⟩
  · rw [hdc] at h
    simp at h
  · rw [hdc] at h
    simp only [Option.some.injEq] at h
    rw [← h]
    refine ⟨?_, rfl⟩
    unfold Klondike.cardCount
    simp only []
    have h2 := dealCascades_count _ cards fs rem hdc
    have h3 : (Deck.new rem).size = rem.length := by
      unfold Deck.new
      rw [deck_take_size]
      unfold Deck.size
      simp
    simp only [List.map_cons, List.map_nil, List.sum_cons, List.sum_nil]
    unfold Pile.size Pile.new
    simp
    omega

theorem take_undo_iter : ∀ (kk : Nat) (d : Deck),
    Deck.undo_take^[kk] (Deck.take^[kk] d) = d := by
  intro kk
  induction kk with
  | zero => intro d; rfl
  | succ m ih =>
    intro d
    rw [Function.iterate_succ_apply' Deck.take m d,
      Function.iterate_succ_apply Deck.undo_take m]
    rw [deck_undo_take_take]
    exact ih d

theorem foundation_peek_flip (f : Foundation) (n : Nat)
    (hcan : f.can_peek n = true) (hvis : f.visible.length = n) (hhid : f.hidden ≠ []) :
    (f.peek n).1.visible.length = 1 ∧ (f.peek n).1.hidden.length + 1 = f.hidden.length := by
  obtain ⟨w, a, hw⟩ := list_concat_of_ne_nil f.hidden hhid
  have htk : f.visible.take (f.visible.length - n) = [] := by
    rw [hvis]
    simp
  have hgl : f.hidden.getLast? = some a := by
    rw [hw]
    exact List.getLast?_concat w
  have hpeek : Foundation.peek f n
      = (⟨f.hidden.dropLast, [a], f.peek_caused_flip ++ [true]⟩,
          f.visible.drop (f.visible.length - n)) := by
    unfold Foundation.peek
    simp only [hcan, if_true]
    rw [htk, hgl]
  rw [hpeek]
  constructor
  · rfl
  · simp
    have hpos : 0 < f.hidden.length := List.length_pos.mpr hhid
    omega

/-! ## Claim theorems -/

/-- C1: for every game state and every `move_cards(from, to, n)` call that
returns true yielding a new state, an immediately following `undo()`
succeeds and yields a state whose `status()` equals that of the original
state, for every origin/destination pair type. -/
theorem claim1_move_undo_status (k km : Klondike) (origin destination : CardHolder)
    (number : Nat) (h : k.move_cards origin destination number = some (true, km)) :
    ∃ ku, km.undo = some ku ∧ ku.get_status = k.get_status :=
  ⟨k, move_undo_restores k km origin destination number h, rfl⟩

/-- Witness for C1 at a concrete successful FOUNDATION → PILE move. -/
theorem claim1_witness :
    exGame1.move_cards (CardHolder.FOUNDATION 0) (CardHolder.PILE 0) 1
        = some (true, exGame1Moved) ∧
      ∃ ku, exGame1Moved.undo = some ku ∧ ku.get_status = exGame1.get_status :=
  ⟨by decide,
    claim1_move_undo_status exGame1 exGame1Moved (CardHolder.FOUNDATION 0)
      (CardHolder.PILE 0) 1 (by decide)⟩

/-- C3: whenever `move_cards` returns false (without panicking), the whole
game state, history included, is exactly as before the call. -/
theorem claim3_move_false_unchanged (k km : Klondike) (origin destination : CardHolder)
    (number : Nat) (h : k.move_cards origin destination number = some (false, km)) :
    km = k :=
  move_cards_false k km origin destination number h

/-- Witness for C3 at a concrete rejected move (a self-move). -/
theorem claim3_witness :
    exGame1.move_cards (CardHolder.PILE 0) (CardHolder.PILE 0) 5
        = some (false, exGame1) ∧ exGame1 = exGame1 :=
  ⟨by decide,
    claim3_move_false_unchanged exGame1 exGame1 (CardHolder.PILE 0)
      (CardHolder.PILE 0) 5 (by decide)⟩

/-- C4: for every deck state and every k ≥ 1, performing `take` k times and
then `undo_take` k times restores the deck status, including through
stock-exhaustion flips. -/
theorem claim4_take_undo_iter (d : Deck) (kk : Nat) (h : 1 ≤ kk) :
    (Deck.undo_take^[kk] (Deck.take^[kk] d)).get_status = d.get_status := by
  rw [take_undo_iter kk d]

/-- Witness for C4: three takes and three undos on a deck whose stock is
exhausted, forcing a reshuffle flip. -/
theorem claim4_witness :
    1 ≤ 3 ∧ (Deck.undo_take^[3] (Deck.take^[3] exDeck2)).get_status
      = exDeck2.get_status :=
  ⟨by decide, claim4_take_undo_iter exDeck2 3 (by decide)⟩

/-- C9: self-moves (pile to the same pile, foundation to the same
foundation) always return false and leave the game, history included,
unchanged, for every index and count. -/
theorem claim9_self_move (k : Klondike) (i : Nat) (n : Nat) :
    k.move_cards (CardHolder.PILE i) (CardHolder.PILE i) n = some (false, k) ∧
      k.move_cards (CardHolder.FOUNDATION i) (CardHolder.FOUNDATION i) n
        = some (false, k) := by
  constructor
  · unfold Klondike.move_cards
    have hpp : Klondike.do_move_cards k (CardHolder.PILE i) (CardHolder.PILE i) n false
        = some (false, k) := by
      show movePP k i i n false = some (false, k)
      unfold movePP
      rw [if_pos (Or.inl rfl)]
    rw [hpp]
  · unfold Klondike.move_cards
    have hff : Klondike.do_move_cards k (CardHolder.FOUNDATION i)
        (CardHolder.FOUNDATION i) n false = some (false, k) := by
      show moveFF k i i n false = some (false, k)
      unfold moveFF
      rw [if_pos (Or.inl rfl)]
    rw [hff]

/-- C10: building a foundation from a non-empty cascade hides all cards but
the last, which becomes the single visible card; building one from zero
cards does not return a foundation (the Rust slicing panics). -/
theorem claim10_foundation_new :
    (∀ (l : List Card) (c : Card),
      Foundation.new (l ++ [c]) =
        some { hidden := l, visible := [c], peek_caused_flip := [] }) ∧
      Foundation.new ([] : List Card) = none := by
  constructor
  · intro l c
    unfold Foundation.new
    rw [if_neg (by simp)]
    simp only [Option.some.injEq]
    have h1 : (l ++ [c]).dropLast = l := by simp
    have h2 : (l ++ [c]).drop ((l ++ [c]).length - 1) = [c] := by
      have : (l ++ [c]).length - 1 = l.length := by simp
      rw [this, List.drop_left]
    rw [h1, h2]
  · rfl

/-- C2 is a code bug: an out-of-range pile index as origin makes the Rust
code index `self.piles[4]` on a four-pile game, which panics (modelled by
`none`) instead of returning false as the specification requires. -/
theorem claim2_oob_panics :
    exGame4.move_cards (CardHolder.PILE 4) (CardHolder.FOUNDATION 0) 1 = none := by
  decide

/-- C5: whenever `try_peek` succeeds on a foundation, `peek` returns exactly
the previewed cards and an immediate `undo_peek` with them restores the
foundation exactly; in particular, peeking all visible cards of a
foundation with a non-empty hidden part reveals exactly one hidden card,
which the undo re-hides. -/
theorem claim5_foundation_peek_undo (f : Foundation) (n : Nat) (cs : List Card)
    (h : f.try_peek n = some cs) :
    Foundation.undo_peek (f.peek n).1 cs = f ∧ (f.peek n).2 = cs ∧
      (f.hidden ≠ [] → f.visible.length = n →
        (f.peek n).1.visible.length = 1 ∧
          (f.peek n).1.hidden.length + 1 = f.hidden.length) := by
  obtain ⟨h1, _, h3, _⟩ := foundation_origin_ops f n cs h
  refine ⟨h3, h1, fun hh hv => ?_⟩
  have hcan : f.can_peek n = true := by
    unfold Foundation.try_peek at h
    split at h
    · rename_i hc
      exact hc
    · simp at h
  exact foundation_peek_flip f n hcan hv hh

/-- Witness for C5: a foundation with one hidden and one visible card. -/
theorem claim5_witness :
    exFound1.try_peek 1 = some [exCardA] ∧
      (Foundation.undo_peek (exFound1.peek 1).1 [exCardA] = exFound1 ∧
        (exFound1.peek 1).2 = [exCardA] ∧
        (exFound1.hidden ≠ [] → exFound1.visible.length = 1 →
          (exFound1.peek 1).1.visible.length = 1 ∧
            (exFound1.peek 1).1.hidden.length + 1 = exFound1.hidden.length)) :=
  ⟨by decide, claim5_foundation_peek_undo exFound1 1 [exCardA] (by decide)⟩

/-- C6: starting from a fresh deal of any 52-card list, after every
sequence of public calls that completes without panicking, the total
number of cards across the deck, the piles and the foundations is 52. -/
theorem claim6_card_conservation (cards : List Card) (ops : List Op) (k0 kf : Klondike)
    (hlen : cards.length = 52) (hnew : Klondike.new_with cards = some k0)
    (happ : applyOps k0 ops = some kf) : kf.cardCount = 52 := by
  obtain ⟨hc0, hh0⟩ := new_with_props cards k0 hnew
  have hok0 : HistOK k0.history := by
    rw [hh0]
    intro e he
    simp at he
  obtain ⟨hc, _⟩ := applyOps_pres ops k0 kf happ hok0
  omega

/-- Witness for C6: a concrete 52-card deal followed by a take and an undo. -/
theorem claim6_witness :
    exCards52.length = 52 ∧ Klondike.new_with exCards52 = some exNewGame ∧
      applyOps exNewGame [Op.take, Op.undo] = some exNewGame ∧
      exNewGame.cardCount = 52 :=
  ⟨by decide, by decide, by decide,
    claim6_card_conservation exCards52 [Op.take, Op.undo] exNewGame exNewGame
      (by decide) (by decide) (by decide)⟩

/-- C7: a pile accepts an offered run exactly when it is a single card that
is an ace on an empty pile, or the same-suit successor of the top card. -/
theorem claim7_pile_try_poke (p : Pile) (cs : List Card) :
    p.try_poke cs = true ↔ ∃ c, cs = [c] ∧
      ((p.cards = [] ∧ c.rank = CardRank.ACE) ∨
       (∃ t, p.cards.getLast? = some t ∧ c.suit = t.suit ∧
         rankVal c.rank = rankVal t.rank + 1)) := by
  rcases cs with _ | ⟨c, rest⟩
  · simp [Pile.try_poke]
  · rcases rest with _ | ⟨c2, r2⟩
    · unfold Pile.try_poke
      rcases hgl : p.cards.getLast? with _ | t
      · have hemp : p.cards = [] := List.getLast?_eq_none_iff.mp hgl
        simp [hemp]
      · have hne : ¬ p.cards = [] := by
          intro hx
          rw [hx] at hgl
          simp at hgl
        simp [hne, hgl]
        intro _
        exact eq_comm
    · simp [Pile.try_poke]

theorem check_alternate_iff (t c : Card) :
    check_alternate_colors_and_descending_rank t c = true ↔
      (rankVal c.rank + 1 = rankVal t.rank ∧ isRed c.suit = !isRed t.suit) := by
  unfold check_alternate_colors_and_descending_rank isRed
  rcases c with ⟨cs, cr⟩
  rcases t with ⟨ts, tr⟩
  cases cs <;> cases ts <;> simp

/-- C8: a foundation rejects an empty run; an empty foundation accepts
exactly a run whose first card is a king; otherwise it accepts exactly a
run whose first card is one rank below the top visible card and of the
opposite color (red {Diamonds, Hearts} versus black {Clubs, Spades});
only the first offered card is checked. -/
theorem claim8_foundation_try_poke (f : Foundation) (cs : List Card) :
    f.try_poke cs = true ↔ ∃ c rest, cs = c :: rest ∧
      ((f.visible = [] ∧ c.rank = CardRank.KING) ∨
       (∃ t, f.visible.getLast? = some t ∧ rankVal c.rank + 1 = rankVal t.rank ∧
         isRed c.suit = !isRed t.suit)) := by
  rcases cs with _ | ⟨c, rest⟩
  · simp [Foundation.try_poke]
  · unfold Foundation.try_poke
    rcases hgl : f.visible.getLast? with _ | t
    · have hemp : f.visible = [] := List.getLast?_eq_none_iff.mp hgl
      simp [hemp]
    · have hne : ¬ f.visible = [] := by
        intro hx
        rw [hx] at hgl
        simp at hgl
      simp [hne, hgl, check_alternate_iff]
